import Mathlib

set_option maxHeartbeats 16000000
set_option maxRecDepth 40000

/-!
Verification of the heads-up Texas Hold'em MCTS win-probability estimator
(`poker_mcts.py`): card model, hand evaluator, deal state, and MCTS engine,
shallowly embedded in Lean.  Python exceptions are modelled by `Option`/`Except`
results; the standard library's random primitives (`random.shuffle`,
`random.sample`, `random.choice`) are modelled by an oracle — an arbitrary
stream of naturals driving a Fisher–Yates shuffle — and theorems quantify over
every oracle.  Float-valued quantities that are only compared (the UCB1 scores)
are abstracted: the index chosen by the arg-max is supplied by the oracle, while
the definedness of each UCB1 evaluation (the `math.log` argument) is modelled
exactly.
-/

namespace Poker

/-- `class Suit(Enum)`: the four suits, in declaration order. -/
inductive Suit where
  | HEARTS | DIAMONDS | CLUBS | SPADES
deriving DecidableEq, Repr

/-- `class Rank(Enum)`: the thirteen ranks, in declaration order. -/
inductive Rank where
  | TWO | THREE | FOUR | FIVE | SIX | SEVEN | EIGHT | NINE | TEN
  | JACK | QUEEN | KING | ACE
deriving DecidableEq, Repr

/-- The numeric `value` of a `Rank` enum member (2..14). -/
def Rank.val : Rank → Nat
  | .TWO => 2 | .THREE => 3 | .FOUR => 4 | .FIVE => 5 | .SIX => 6
  | .SEVEN => 7 | .EIGHT => 8 | .NINE => 9 | .TEN => 10
  | .JACK => 11 | .QUEEN => 12 | .KING => 13 | .ACE => 14

/-- `class Card`: an immutable (rank, suit) pair; equality is componentwise. -/
structure Card where
  rank : Rank
  suit : Suit
deriving DecidableEq, Repr

/-- `class HandRank(Enum)`: the ten hand categories. -/
inductive HandRank where
  | HIGH_CARD | PAIR | TWO_PAIR | THREE_OF_KIND | STRAIGHT | FLUSH
  | FULL_HOUSE | FOUR_OF_KIND | STRAIGHT_FLUSH | ROYAL_FLUSH
deriving DecidableEq, Repr

/-- The numeric `value` of a `HandRank` enum member (1..10). -/
def HandRank.val : HandRank → Nat
  | .HIGH_CARD => 1 | .PAIR => 2 | .TWO_PAIR => 3 | .THREE_OF_KIND => 4
  | .STRAIGHT => 5 | .FLUSH => 6 | .FULL_HOUSE => 7 | .FOUR_OF_KIND => 8
  | .STRAIGHT_FLUSH => 9 | .ROYAL_FLUSH => 10

/-- Descending sort of a list of naturals (Python's `sorted(..., reverse=True)`). -/
def sortDesc (l : List Nat) : List Nat := List.insertionSort (· ≥ ·) l

/-- `len(set(suits)) == 1` on the (non-empty) suit list of a hand. -/
def isFlush (cards : List Card) : Bool :=
  match cards.map Card.suit with
  | [] => false
  | s :: rest => rest.all (· = s)

/--
The straight test of `evaluate_hand` on the descending rank list: `some h`
when the hand is a straight with high card `h` (`5` for the wheel
`A-2-3-4-5`), `none` otherwise.  Mirrors the `is_straight` / `straight_high`
computation of the source.
-/
def straightHigh (ranks : List Nat) : Option Nat :=
  if ranks = [14, 5, 4, 3, 2] then some 5
  else match ranks with
    | [a, b, c, d, e] =>
        if a = b + 1 ∧ b = c + 1 ∧ c = d + 1 ∧ d = e + 1 then some a else none
    | _ => none

/--
The items of `Counter(ranks)` (key, multiplicity), for the descending-sorted
`ranks` list of `evaluate_hand`: equal ranks are adjacent in a sorted list, so
a single run-length pass yields exactly the Counter's keys in first-occurrence
order with their multiplicities.
-/
def counterItems : List Nat → List (Nat × Nat)
  | [] => []
  | r :: rest =>
    match counterItems rest with
    | (s, k) :: tail => if r = s then (r, k + 1) :: tail else (r, 1) :: (s, k) :: tail
    | [] => [(r, 1)]

/-- `sorted(rank_counts.values(), reverse=True)`: multiplicities, descending. -/
def countsDesc (ranks : List Nat) : List Nat :=
  sortDesc ((counterItems ranks).map (·.2))

/--
`sorted([rank for rank, count in rank_counts.items() if count == c], reverse=True)`.
The source applies the descending sort where more than one element is possible
and takes `[0]` where the list is a singleton, so sorting uniformly is
semantics-preserving in every use.
-/
def ranksWithCount (ranks : List Nat) (c : Nat) : List Nat :=
  sortDesc (((counterItems ranks).filter fun p => p.2 = c).map (·.1))

/--
Core of `HandEvaluator.evaluate_hand`, operating on the descending rank list
and the flush flag (the suits are consulted only through `is_flush` in the
source).
-/
def evalCore (ranks : List Nat) (is_flush : Bool) : HandRank × List Nat :=
  let counts := countsDesc ranks
  let sh := straightHigh ranks
  if sh.isSome ∧ is_flush then
    if ranks.headD 0 = 14 ∧ (ranks.drop 1).headD 0 = 13 then
      (HandRank.ROYAL_FLUSH, [])
    else
      (HandRank.STRAIGHT_FLUSH, [sh.getD 0])
  else if counts = [4, 1] then
    (HandRank.FOUR_OF_KIND,
      [(ranksWithCount ranks 4).headD 0, (ranksWithCount ranks 1).headD 0])
  else if counts = [3, 2] then
    (HandRank.FULL_HOUSE,
      [(ranksWithCount ranks 3).headD 0, (ranksWithCount ranks 2).headD 0])
  else if is_flush then
    (HandRank.FLUSH, ranks)
  else if sh.isSome then
    (HandRank.STRAIGHT, [sh.getD 0])
  else if counts = [3, 1, 1] then
    (HandRank.THREE_OF_KIND,
      (ranksWithCount ranks 3).headD 0 :: ranksWithCount ranks 1)
  else if counts = [2, 2, 1] then
    (HandRank.TWO_PAIR, ranksWithCount ranks 2 ++ [(ranksWithCount ranks 1).headD 0])
  else if counts = [2, 1, 1, 1] then
    (HandRank.PAIR, (ranksWithCount ranks 2).headD 0 :: ranksWithCount ranks 1)
  else
    (HandRank.HIGH_CARD, ranks)

/--
`HandEvaluator.evaluate_hand(cards)`: raises (`none`) unless the hand has
exactly 5 cards; otherwise sorts the cards by rank descending and classifies.
-/
def evaluate_hand (cards : List Card) : Option (HandRank × List Nat) :=
  if cards.length = 5 then
    some (evalCore (sortDesc (cards.map fun c => c.rank.val)) (isFlush cards))
  else
    none

/-! ### Specification-side hand classification (following the spec's words) -/

/-- Spec: a flush means all five suits are equal. -/
def specFlush (cards : List Card) : Bool :=
  cards.all fun c1 => cards.all fun c2 => c1.suit == c2.suit

/-- Spec: the wheel — the ranks are exactly {14,5,4,3,2}. -/
def specWheel (ranks : List Nat) : Bool := ranks.isPerm [14, 5, 4, 3, 2]

/-- Spec: five consecutive ranks, highest `h`. -/
def specConsecutive (ranks : List Nat) : Bool :=
  ranks.any fun h => ranks.isPerm [h, h - 1, h - 2, h - 3, h - 4]

/-- Spec: a straight is five consecutive ranks, or the wheel. -/
def specStraight (ranks : List Nat) : Bool :=
  specConsecutive ranks || specWheel ranks

/-- Spec: the straight's high card — 5 for the wheel. -/
def specStraightHigh (ranks : List Nat) : Nat :=
  if specWheel ranks then 5 else ranks.foldr max 0

/-- Spec: some rank occurs exactly `c` times. -/
def specHasCount (ranks : List Nat) (c : Nat) : Bool :=
  ranks.any fun r => ranks.count r == c

/-- Spec: two distinct ranks each occur exactly twice. -/
def specTwoPair (ranks : List Nat) : Bool :=
  ranks.any fun r1 => ranks.any fun r2 =>
    r1 != r2 && ranks.count r1 == 2 && ranks.count r2 == 2

/--
Spec category precedence: royal flush (straight flush with ranks exactly
{14,13,12,11,10}) > straight flush > four of a kind > full house > flush >
straight > three of a kind > two pair > pair > high card.
-/
def specCategory (ranks : List Nat) (flush : Bool) : HandRank :=
  if specStraight ranks && flush then
    if ranks.isPerm [14, 13, 12, 11, 10] then HandRank.ROYAL_FLUSH
    else HandRank.STRAIGHT_FLUSH
  else if specHasCount ranks 4 then HandRank.FOUR_OF_KIND
  else if specHasCount ranks 3 && specHasCount ranks 2 then HandRank.FULL_HOUSE
  else if flush then HandRank.FLUSH
  else if specStraight ranks then HandRank.STRAIGHT
  else if specHasCount ranks 3 then HandRank.THREE_OF_KIND
  else if specTwoPair ranks then HandRank.TWO_PAIR
  else if specHasCount ranks 2 then HandRank.PAIR
  else HandRank.HIGH_CARD

/-- Spec: the rank occurring exactly `c` times (categories make it unique). -/
def specRankWith (ranks : List Nat) (c : Nat) : Nat :=
  (ranks.find? fun r => ranks.count r == c).getD 0

/-- Spec: the kickers (ranks occurring once), descending. -/
def specKickersDesc (ranks : List Nat) : List Nat :=
  sortDesc (ranks.filter fun r => ranks.count r == 1)

/-- Spec: the ranks paired exactly twice, descending (higher pair first). -/
def specPairsDesc (ranks : List Nat) : List Nat :=
  sortDesc ((ranks.filter fun r => ranks.count r == 2).dedup)

/-- Spec tiebreakers for a hand of the given category. -/
def specTiebreak (ranks : List Nat) : HandRank → List Nat
  | HandRank.ROYAL_FLUSH => []
  | HandRank.STRAIGHT_FLUSH => [specStraightHigh ranks]
  | HandRank.STRAIGHT => [specStraightHigh ranks]
  | HandRank.FOUR_OF_KIND => [specRankWith ranks 4, specRankWith ranks 1]
  | HandRank.FULL_HOUSE => [specRankWith ranks 3, specRankWith ranks 2]
  | HandRank.FLUSH => sortDesc ranks
  | HandRank.HIGH_CARD => sortDesc ranks
  | HandRank.THREE_OF_KIND => specRankWith ranks 3 :: specKickersDesc ranks
  | HandRank.TWO_PAIR => specPairsDesc ranks ++ [specRankWith ranks 1]
  | HandRank.PAIR => specRankWith ranks 2 :: specKickersDesc ranks

/-- The spec's evaluated hand for a 5-card hand. -/
def specEvaluate (cards : List Card) : HandRank × List Nat :=
  let ranks := sortDesc (cards.map fun c => c.rank.val)
  let flush := specFlush cards
  (specCategory ranks flush, specTiebreak ranks (specCategory ranks flush))

/-- Tiebreaker-list length per category (an implicit invariant of the code). -/
def tbLen : HandRank → Nat
  | HandRank.ROYAL_FLUSH => 0
  | HandRank.STRAIGHT_FLUSH => 1
  | HandRank.STRAIGHT => 1
  | HandRank.FOUR_OF_KIND => 2
  | HandRank.FULL_HOUSE => 2
  | HandRank.THREE_OF_KIND => 3
  | HandRank.TWO_PAIR => 3
  | HandRank.PAIR => 4
  | HandRank.FLUSH => 5
  | HandRank.HIGH_CARD => 5

/-! ### Exhaustive verification of the evaluator core over all rank multisets -/

/-- The possible card rank values up to `m`: `[2, …, m]`. -/
def rankRange (m : Nat) : List Nat := (List.range (m + 1)).filter fun a => 2 ≤ a

/--
One-flag check: the code core's category (compared through the injective
numeric `HandRank.val`) and tiebreakers agree with the spec's, and the
tiebreaker length is the category's `tbLen`.
-/
def handOK1 (l : List Nat) (f : Bool) : Bool :=
  (evalCore l f).1.val == (specCategory l f).val
    && (evalCore l f).2 == specTiebreak l (specCategory l f)
    && (evalCore l f).2.length == tbLen (evalCore l f).1

/-- Per-hand check, for both values of the flush flag. -/
def handOK (l : List Nat) : Bool := handOK1 l true && handOK1 l false

/-- Exhaustive check over the descending 5-lists of rank values headed by `a`. -/
def handsFrom (a : Nat) : Bool :=
  (rankRange a).all fun b => (rankRange b).all fun c =>
    (rankRange c).all fun d => (rankRange d).all fun e => handOK [a, b, c, d, e]

end Poker

namespace Poker

/--
The inner two-level slice of `handsFrom`, split out so that the exhaustive
check is performed in bounded-size chunks.
-/
def handsFrom2 (a b : Nat) : Bool :=
  (rankRange b).all fun c => (rankRange c).all fun d =>
    (rankRange d).all fun e => handOK [a, b, c, d, e]

theorem handsFrom_ok_2 : handsFrom 2 = true := by decide

theorem handsFrom_ok_3 : handsFrom 3 = true := by decide

theorem handsFrom_ok_4 : handsFrom 4 = true := by decide

theorem handsFrom_ok_5 : handsFrom 5 = true := by decide

theorem handsFrom_ok_6 : handsFrom 6 = true := by decide

theorem handsFrom_ok_7 : handsFrom 7 = true := by decide

theorem handsFrom_ok_8 : handsFrom 8 = true := by decide

theorem handsFrom_ok_9 : handsFrom 9 = true := by decide

theorem handsFrom_ok_10 : handsFrom 10 = true := by decide

theorem handsFrom_ok_11 : handsFrom 11 = true := by decide

theorem handsFrom2_ok_12_2 : handsFrom2 12 2 = true := by decide

theorem handsFrom2_ok_12_3 : handsFrom2 12 3 = true := by decide

theorem handsFrom2_ok_12_4 : handsFrom2 12 4 = true := by decide

theorem handsFrom2_ok_12_5 : handsFrom2 12 5 = true := by decide

theorem handsFrom2_ok_12_6 : handsFrom2 12 6 = true := by decide

theorem handsFrom2_ok_12_7 : handsFrom2 12 7 = true := by decide

theorem handsFrom2_ok_12_8 : handsFrom2 12 8 = true := by decide

theorem handsFrom2_ok_12_9 : handsFrom2 12 9 = true := by decide

theorem handsFrom2_ok_12_10 : handsFrom2 12 10 = true := by decide

theorem handsFrom2_ok_12_11 : handsFrom2 12 11 = true := by decide

theorem handsFrom2_ok_12_12 : handsFrom2 12 12 = true := by decide

theorem handsFrom2_ok_13_2 : handsFrom2 13 2 = true := by decide

theorem handsFrom2_ok_13_3 : handsFrom2 13 3 = true := by decide

theorem handsFrom2_ok_13_4 : handsFrom2 13 4 = true := by decide

theorem handsFrom2_ok_13_5 : handsFrom2 13 5 = true := by decide

theorem handsFrom2_ok_13_6 : handsFrom2 13 6 = true := by decide

theorem handsFrom2_ok_13_7 : handsFrom2 13 7 = true := by decide

theorem handsFrom2_ok_13_8 : handsFrom2 13 8 = true := by decide

theorem handsFrom2_ok_13_9 : handsFrom2 13 9 = true := by decide

theorem handsFrom2_ok_13_10 : handsFrom2 13 10 = true := by decide

theorem handsFrom2_ok_13_11 : handsFrom2 13 11 = true := by decide

theorem handsFrom2_ok_13_12 : handsFrom2 13 12 = true := by decide

theorem handsFrom2_ok_13_13 : handsFrom2 13 13 = true := by decide

theorem handsFrom2_ok_14_2 : handsFrom2 14 2 = true := by decide

theorem handsFrom2_ok_14_3 : handsFrom2 14 3 = true := by decide

theorem handsFrom2_ok_14_4 : handsFrom2 14 4 = true := by decide

theorem handsFrom2_ok_14_5 : handsFrom2 14 5 = true := by decide

theorem handsFrom2_ok_14_6 : handsFrom2 14 6 = true := by decide

theorem handsFrom2_ok_14_7 : handsFrom2 14 7 = true := by decide

theorem handsFrom2_ok_14_8 : handsFrom2 14 8 = true := by decide

theorem handsFrom2_ok_14_9 : handsFrom2 14 9 = true := by decide

theorem handsFrom2_ok_14_10 : handsFrom2 14 10 = true := by decide

theorem handsFrom2_ok_14_11 : handsFrom2 14 11 = true := by decide

theorem handsFrom2_ok_14_12 : handsFrom2 14 12 = true := by decide

theorem handsFrom2_ok_14_13 : handsFrom2 14 13 = true := by decide

theorem handsFrom2_ok_14_14 : handsFrom2 14 14 = true := by decide

theorem mem_rankRange {x m : Nat} : x ∈ rankRange m ↔ 2 ≤ x ∧ x ≤ m := by
  simp only [rankRange, List.mem_filter, List.mem_range, decide_eq_true_eq]
  omega

theorem handsFrom_ok_12 : handsFrom 12 = true := by
  rw [handsFrom, List.all_eq_true]
  intro b hb
  rw [mem_rankRange] at hb
  show handsFrom2 12 b = true
  obtain ⟨hb1, hb2⟩ := hb
  interval_cases b
  exacts [handsFrom2_ok_12_2, handsFrom2_ok_12_3, handsFrom2_ok_12_4, handsFrom2_ok_12_5, handsFrom2_ok_12_6, handsFrom2_ok_12_7, handsFrom2_ok_12_8, handsFrom2_ok_12_9, handsFrom2_ok_12_10, handsFrom2_ok_12_11, handsFrom2_ok_12_12]

theorem handsFrom_ok_13 : handsFrom 13 = true := by
  rw [handsFrom, List.all_eq_true]
  intro b hb
  rw [mem_rankRange] at hb
  show handsFrom2 13 b = true
  obtain ⟨hb1, hb2⟩ := hb
  interval_cases b
  exacts [handsFrom2_ok_13_2, handsFrom2_ok_13_3, handsFrom2_ok_13_4, handsFrom2_ok_13_5, handsFrom2_ok_13_6, handsFrom2_ok_13_7, handsFrom2_ok_13_8, handsFrom2_ok_13_9, handsFrom2_ok_13_10, handsFrom2_ok_13_11, handsFrom2_ok_13_12, handsFrom2_ok_13_13]

theorem handsFrom_ok_14 : handsFrom 14 = true := by
  rw [handsFrom, List.all_eq_true]
  intro b hb
  rw [mem_rankRange] at hb
  show handsFrom2 14 b = true
  obtain ⟨hb1, hb2⟩ := hb
  interval_cases b
  exacts [handsFrom2_ok_14_2, handsFrom2_ok_14_3, handsFrom2_ok_14_4, handsFrom2_ok_14_5, handsFrom2_ok_14_6, handsFrom2_ok_14_7, handsFrom2_ok_14_8, handsFrom2_ok_14_9, handsFrom2_ok_14_10, handsFrom2_ok_14_11, handsFrom2_ok_14_12, handsFrom2_ok_14_13, handsFrom2_ok_14_14]

theorem handsFrom_true : ∀ a : Nat, 2 ≤ a → a ≤ 14 → handsFrom a = true := by
  intro a h1 h2
  interval_cases a
  · exact handsFrom_ok_2
  · exact handsFrom_ok_3
  · exact handsFrom_ok_4
  · exact handsFrom_ok_5
  · exact handsFrom_ok_6
  · exact handsFrom_ok_7
  · exact handsFrom_ok_8
  · exact handsFrom_ok_9
  · exact handsFrom_ok_10
  · exact handsFrom_ok_11
  · exact handsFrom_ok_12
  · exact handsFrom_ok_13
  · exact handsFrom_ok_14

theorem handOK_of_mem {a : Nat} (ha : handsFrom a = true) {b c d e : Nat}
    (hb : b ∈ rankRange a) (hc : c ∈ rankRange b) (hd : d ∈ rankRange c)
    (he : e ∈ rankRange d) : handOK [a, b, c, d, e] = true := by
  simp only [handsFrom, List.all_eq_true] at ha
  exact ha b hb c hc d hd e he

theorem handOK_sorted {l : List Nat} (h5 : l.length = 5)
    (hs : List.Sorted (· ≥ ·) l) (hb : ∀ x ∈ l, 2 ≤ x ∧ x ≤ 14) :
    handOK l = true := by
  obtain ⟨a, b, c, d, e, rfl⟩ : ∃ a b c d e, l = [a, b, c, d, e] := by
    match l, h5 with
    | [a, b, c, d, e], _ => exact ⟨a, b, c, d, e, rfl⟩
  simp only [List.sorted_cons, List.mem_cons, List.mem_singleton] at hs
  have ha := hb a (by simp)
  have hbb := hb b (by simp)
  have hcb := hb c (by simp)
  have hdb := hb d (by simp)
  have heb := hb e (by simp)
  apply handOK_of_mem (handsFrom_true a ha.1 ha.2) <;> rw [mem_rankRange]
  · exact ⟨hbb.1, hs.1 b (Or.inl rfl)⟩
  · exact ⟨hcb.1, hs.2.1 c (Or.inl rfl)⟩
  · exact ⟨hdb.1, hs.2.2.1 d (Or.inl rfl)⟩
  · exact ⟨heb.1, hs.2.2.2.1 e (Or.inl rfl)⟩

theorem rankVal_bounds (r : Rank) : 2 ≤ r.val ∧ r.val ≤ 14 := by
  cases r <;> exact ⟨by decide, by decide⟩

theorem sortDesc_sorted (l : List Nat) : List.Sorted (· ≥ ·) (sortDesc l) :=
  List.sorted_insertionSort _ l

theorem sortDesc_perm (l : List Nat) : (sortDesc l).Perm l :=
  List.perm_insertionSort _ l

theorem sortDesc_length (l : List Nat) : (sortDesc l).length = l.length :=
  List.length_insertionSort _ l

theorem isFlush_iff (c : Card) (rest : List Card) :
    isFlush (c :: rest) = true ↔ ∀ x ∈ rest, x.suit = c.suit := by
  simp [isFlush, List.all_eq_true]

theorem specFlush_iff (cards : List Card) :
    specFlush cards = true ↔ ∀ c1 ∈ cards, ∀ c2 ∈ cards, c1.suit = c2.suit := by
  simp [specFlush, List.all_eq_true]

theorem isFlush_eq_specFlush (c : Card) (rest : List Card) :
    isFlush (c :: rest) = specFlush (c :: rest) := by
  by_cases h : ∀ x ∈ rest, x.suit = c.suit
  · have hall : ∀ y ∈ c :: rest, y.suit = c.suit := by
      intro y hy
      rcases List.mem_cons.mp hy with hy1 | hy2
      · rw [hy1]
      · exact h y hy2
    rw [(isFlush_iff c rest).mpr h, (specFlush_iff (c :: rest)).mpr
      fun c1 h1 c2 h2 => (hall c1 h1).trans (hall c2 h2).symm]
  · have h1 : isFlush (c :: rest) = false :=
      Bool.eq_false_iff.mpr fun hx => h ((isFlush_iff c rest).mp hx)
    have h2 : specFlush (c :: rest) = false := by
      refine Bool.eq_false_iff.mpr fun hx => h fun x hx2 => ?_
      exact (specFlush_iff (c :: rest)).mp hx x (List.mem_cons_of_mem c hx2)
        c (List.mem_cons_self c rest)
    rw [h1, h2]

theorem HandRank.val_injective {x y : HandRank} (h : x.val = y.val) : x = y := by
  cases x <;> cases y <;> revert h <;> decide

theorem evalCore_eq_spec {cards : List Card} (h5 : cards.length = 5) :
    evalCore (sortDesc (cards.map fun c => c.rank.val)) (isFlush cards)
      = specEvaluate cards := by
  have hlen : (sortDesc (cards.map fun c => c.rank.val)).length = 5 := by
    rw [sortDesc_length, List.length_map, h5]
  have hb : ∀ x ∈ sortDesc (cards.map fun c => c.rank.val), 2 ≤ x ∧ x ≤ 14 := by
    intro x hx
    have hx2 := (sortDesc_perm _).mem_iff.mp hx
    obtain ⟨cd, _, rfl⟩ := List.mem_map.mp hx2
    exact rankVal_bounds cd.rank
  have hok := handOK_sorted hlen (sortDesc_sorted _) hb
  simp only [handOK, handOK1, Bool.and_eq_true, beq_iff_eq] at hok
  obtain ⟨⟨⟨hct, htt⟩, hlt⟩, ⟨⟨hcf, htf⟩, hlf⟩⟩ := hok
  clear hlt hlf
  have key : evalCore (sortDesc (cards.map fun c => c.rank.val)) (isFlush cards)
      = (specCategory (sortDesc (cards.map fun c => c.rank.val)) (isFlush cards),
         specTiebreak (sortDesc (cards.map fun c => c.rank.val))
           (specCategory (sortDesc (cards.map fun c => c.rank.val)) (isFlush cards))) := by
    cases hf : isFlush cards
    · exact Prod.ext (HandRank.val_injective hcf) htf
    · exact Prod.ext (HandRank.val_injective hct) htt
  obtain ⟨ch, ct, rfl⟩ : ∃ ch ct, cards = ch :: ct := by
    match cards, h5 with
    | c :: t, _ => exact ⟨c, t, rfl⟩
  show _ = (specCategory _ (specFlush _), specTiebreak _ (specCategory _ (specFlush _)))
  rw [← isFlush_eq_specFlush ch ct]
  exact key

theorem handOK_of_cards {cards : List Card} (h5 : cards.length = 5) :
    handOK (sortDesc (cards.map fun c => c.rank.val)) = true := by
  have hlen : (sortDesc (cards.map fun c => c.rank.val)).length = 5 := by
    rw [sortDesc_length, List.length_map, h5]
  refine handOK_sorted hlen (sortDesc_sorted _) ?_
  intro x hx
  have hx2 := (sortDesc_perm _).mem_iff.mp hx
  obtain ⟨cd, _, rfl⟩ := List.mem_map.mp hx2
  exact rankVal_bounds cd.rank

/--
C1: for every 5-card hand, `evaluate_hand` returns exactly the category and
tiebreakers prescribed by the specification (category precedence with
flush/straight/wheel as specified, and the per-category tiebreaker lists),
and it fails exactly when the input size is not 5.
-/
theorem evaluate_hand_matches_spec (cards : List Card) :
    (cards.length = 5 → cards.Nodup → evaluate_hand cards = some (specEvaluate cards))
    ∧ (evaluate_hand cards = none ↔ cards.length ≠ 5) := by
  constructor
  · intro h5 _
    rw [evaluate_hand, if_pos h5, evalCore_eq_spec h5]
  · by_cases h5 : cards.length = 5 <;> simp [evaluate_hand, h5]

/-- Witness for C1 at a concrete royal-flush hand and a failing empty input. -/
theorem evaluate_hand_matches_spec_witness :
    evaluate_hand
        [⟨Rank.ACE, Suit.SPADES⟩, ⟨Rank.KING, Suit.SPADES⟩, ⟨Rank.QUEEN, Suit.SPADES⟩,
         ⟨Rank.JACK, Suit.SPADES⟩, ⟨Rank.TEN, Suit.SPADES⟩]
      = some (specEvaluate
        [⟨Rank.ACE, Suit.SPADES⟩, ⟨Rank.KING, Suit.SPADES⟩, ⟨Rank.QUEEN, Suit.SPADES⟩,
         ⟨Rank.JACK, Suit.SPADES⟩, ⟨Rank.TEN, Suit.SPADES⟩])
      ∧ (evaluate_hand [] = none ↔ ([] : List Card).length ≠ 5) :=
  ⟨(evaluate_hand_matches_spec _).1 (by decide) (by decide),
   (evaluate_hand_matches_spec []).2⟩

theorem eval_tbLen {cards : List Card} {out : HandRank × List Nat}
    (h5 : cards.length = 5) (he : evaluate_hand cards = some out) :
    out.2.length = tbLen out.1 := by
  have hok := handOK_of_cards h5
  simp only [handOK, handOK1, Bool.and_eq_true, beq_iff_eq] at hok
  rw [evaluate_hand, if_pos h5] at he
  have hout : out = evalCore (sortDesc (cards.map fun c => c.rank.val)) (isFlush cards) :=
    (Option.some.inj he).symm
  subst hout
  cases hf : isFlush cards
  · rw [hf] at *
    exact hok.2.2
  · rw [hf] at *
    exact hok.1.2

/--
C9: the tiebreaker-list length of an evaluated 5-card hand is a function of
the category alone (`tbLen`); hence two results with equal categories have
equal-length tiebreaker lists.
-/
theorem tiebreak_length_matches_category :
    (∀ (cards : List Card) (out : HandRank × List Nat), cards.length = 5 → cards.Nodup →
        evaluate_hand cards = some out → out.2.length = tbLen out.1)
    ∧ ∀ (cards1 cards2 : List Card) (o1 o2 : HandRank × List Nat),
        cards1.length = 5 → cards2.length = 5 → cards1.Nodup → cards2.Nodup →
        evaluate_hand cards1 = some o1 → evaluate_hand cards2 = some o2 →
        o1.1 = o2.1 → o1.2.length = o2.2.length := by
  refine ⟨fun cards out h5 _ he => eval_tbLen h5 he, ?_⟩
  intro c1 c2 o1 o2 h51 h52 _ _ he1 he2 hcat
  rw [eval_tbLen h51 he1, eval_tbLen h52 he2, hcat]

/-- Witness for C9 at two concrete hands of equal category. -/
theorem tiebreak_length_matches_category_witness :
    ((HandRank.PAIR, [14, 9, 3, 2]) : HandRank × List Nat).2.length
        = tbLen (HandRank.PAIR, [14, 9, 3, 2]).1
      ∧ ((HandRank.PAIR, [14, 9, 3, 2]) : HandRank × List Nat).2.length
        = ((HandRank.PAIR, [13, 9, 3, 2]) : HandRank × List Nat).2.length :=
  ⟨tiebreak_length_matches_category.1
      [⟨Rank.ACE, Suit.SPADES⟩, ⟨Rank.ACE, Suit.HEARTS⟩, ⟨Rank.NINE, Suit.CLUBS⟩,
       ⟨Rank.THREE, Suit.SPADES⟩, ⟨Rank.TWO, Suit.HEARTS⟩]
      (HandRank.PAIR, [14, 9, 3, 2]) (by decide) (by decide) (by decide),
   tiebreak_length_matches_category.2
      [⟨Rank.ACE, Suit.SPADES⟩, ⟨Rank.ACE, Suit.HEARTS⟩, ⟨Rank.NINE, Suit.CLUBS⟩,
       ⟨Rank.THREE, Suit.SPADES⟩, ⟨Rank.TWO, Suit.HEARTS⟩]
      [⟨Rank.KING, Suit.SPADES⟩, ⟨Rank.KING, Suit.HEARTS⟩, ⟨Rank.NINE, Suit.CLUBS⟩,
       ⟨Rank.THREE, Suit.SPADES⟩, ⟨Rank.TWO, Suit.HEARTS⟩]
      (HandRank.PAIR, [14, 9, 3, 2]) (HandRank.PAIR, [13, 9, 3, 2])
      (by decide) (by decide) (by decide) (by decide) (by decide) (by decide) rfl⟩

/-! ### Hand comparison and best hand -/

/-- The `zip`-based tiebreaker loop of `compare_hands` (stops at the shorter list). -/
def cmpTie : List Nat → List Nat → Int
  | t1 :: r1, t2 :: r2 =>
    if t1 > t2 then 1 else if t1 < t2 then -1 else cmpTie r1 r2
  | _, _ => 0

/-- `HandEvaluator.compare_hands`: category ordinal first, then tiebreakers. -/
def compare_hands (hand1 hand2 : HandRank × List Nat) : Int :=
  if hand1.1.val > hand2.1.val then 1
  else if hand1.1.val < hand2.1.val then -1
  else cmpTie hand1.2 hand2.2

/-- Python's `list.__lt__` on tiebreaker lists: lexicographic, a strict prefix is smaller. -/
def pyListLt : List Nat → List Nat → Bool
  | [], [] => false
  | [], _ :: _ => true
  | _ :: _, [] => false
  | a :: as, b :: bs => if a < b then true else if b < a then false else pyListLt as bs

/-- `itertools.combinations(l, n)`: all length-`n` sublists, in Python's order. -/
def combos : Nat → List α → List (List α)
  | 0, _ => [[]]
  | _ + 1, [] => []
  | n + 1, x :: xs => ((combos n xs).map (x :: ·)) ++ combos (n + 1) xs

/--
The update condition of `best_hand`'s loop:
`rank.value > best_rank.value or (rank.value == best_rank.value and tiebreakers > best_tiebreakers)`.
-/
def betterThan (rank : HandRank) (tb : List Nat) (best : HandRank × List Nat) : Bool :=
  best.1.val < rank.val || (rank.val == best.1.val && pyListLt best.2 tb)

/--
One step of `best_hand`'s loop.  The `none` branch keeps the current best; it
is unreachable because every 5-subset of the 7 cards evaluates successfully.
-/
def bestStep (best : HandRank × List Nat) (hand : List Card) : HandRank × List Nat :=
  match evaluate_hand hand with
  | some (rank, tb) => if betterThan rank tb best then (rank, tb) else best
  | none => best

/-- `HandEvaluator.best_hand`: best 5-card hand out of 2 hole + 5 community cards. -/
def best_hand (hole_cards community_cards : List Card) : Option (HandRank × List Nat) :=
  let all_cards := hole_cards ++ community_cards
  if all_cards.length = 7 then
    some ((combos 5 all_cards).foldl bestStep (HandRank.HIGH_CARD, []))
  else none

/-- Spec-side full lexicographic comparison (a strict prefix is smaller). -/
def specLexCmp : List Nat → List Nat → Int
  | [], [] => 0
  | [], _ :: _ => -1
  | _ :: _, [] => 1
  | a :: as, b :: bs => if a > b then 1 else if a < b then -1 else specLexCmp as bs

theorem pyListLt_irrefl : ∀ l : List Nat, pyListLt l l = false := by
  intro l
  induction l with
  | nil => rfl
  | cons a as ih => simp [pyListLt, ih]

theorem pyListLt_trans : ∀ {a b c : List Nat},
    pyListLt a b = true → pyListLt b c = true → pyListLt a c = true := by
  intro a
  induction a with
  | nil =>
    intro b c hab hbc
    cases b with
    | nil => exact absurd hab (by simp [pyListLt])
    | cons y ys =>
      cases c with
      | nil => exact absurd hbc (by simp [pyListLt])
      | cons z zs => simp [pyListLt]
  | cons x xs ih =>
    intro b c hab hbc
    cases b with
    | nil => exact absurd hab (by simp [pyListLt])
    | cons y ys =>
      cases c with
      | nil => exact absurd hbc (by simp [pyListLt])
      | cons z zs =>
        simp only [pyListLt] at hab hbc ⊢
        rcases Nat.lt_trichotomy x y with hxy | hxy | hxy
        · rcases Nat.lt_trichotomy y z with hyz | hyz | hyz
          · rw [if_pos (Nat.lt_trans hxy hyz)]
          · rw [if_pos (hyz ▸ hxy)]
          · rw [if_neg (Nat.lt_asymm hyz), if_pos hyz] at hbc
            cases hbc
        · subst hxy
          rcases Nat.lt_trichotomy x z with hxz | hxz | hxz
          · rw [if_pos hxz]
          · subst hxz
            rw [if_neg (Nat.lt_irrefl x), if_neg (Nat.lt_irrefl x)] at hab hbc ⊢
            exact ih hab hbc
          · rw [if_neg (Nat.lt_asymm hxz), if_pos hxz] at hbc
            cases hbc
        · rw [if_neg (Nat.lt_asymm hxy), if_pos hxy] at hab
          cases hab

theorem pyListLt_trichotomy : ∀ a b : List Nat,
    pyListLt a b = true ∨ a = b ∨ pyListLt b a = true := by
  intro a
  induction a with
  | nil =>
    intro b
    cases b with
    | nil => exact Or.inr (Or.inl rfl)
    | cons y ys => exact Or.inl (by simp [pyListLt])
  | cons x xs ih =>
    intro b
    cases b with
    | nil => exact Or.inr (Or.inr (by simp [pyListLt]))
    | cons y ys =>
      rcases Nat.lt_trichotomy x y with hxy | hxy | hxy
      · exact Or.inl (by simp [pyListLt, hxy])
      · subst hxy
        rcases ih ys with h | h | h
        · exact Or.inl (by simp [pyListLt, h])
        · exact Or.inr (Or.inl (by rw [h]))
        · exact Or.inr (Or.inr (by simp [pyListLt, h]))
      · exact Or.inr (Or.inr (by simp [pyListLt, hxy]))

theorem specLexCmp_eq_one : ∀ a b : List Nat,
    specLexCmp a b = 1 ↔ pyListLt b a = true := by
  intro a
  induction a with
  | nil => intro b; cases b <;> simp [specLexCmp, pyListLt]
  | cons x xs ih =>
    intro b
    cases b with
    | nil => simp [specLexCmp, pyListLt]
    | cons y ys =>
      simp only [specLexCmp, pyListLt]
      rcases Nat.lt_trichotomy x y with h | h | h
      · simp [Nat.not_lt.mpr (Nat.le_of_lt h), h, Nat.lt_irrefl, Nat.not_lt_of_lt h]
      · subst h
        simp [Nat.lt_irrefl, ih ys]
      · simp [h, Nat.not_lt_of_lt h]

theorem specLexCmp_eq_zero : ∀ a b : List Nat, specLexCmp a b = 0 ↔ a = b := by
  intro a
  induction a with
  | nil => intro b; cases b <;> simp [specLexCmp]
  | cons x xs ih =>
    intro b
    cases b with
    | nil => simp [specLexCmp]
    | cons y ys =>
      simp only [specLexCmp]
      rcases Nat.lt_trichotomy x y with h | h | h
      · simp [h, Nat.not_lt_of_lt h, Nat.ne_of_lt h]
      · subst h
        simp [Nat.lt_irrefl, ih ys]
      · simp [h, Nat.not_lt_of_lt h, (Nat.ne_of_lt h).symm]

theorem cmpTie_eq_specLexCmp : ∀ {a b : List Nat}, a.length = b.length →
    cmpTie a b = specLexCmp a b := by
  intro a
  induction a with
  | nil =>
    intro b hb
    cases b with
    | nil => rfl
    | cons y ys => simp at hb
  | cons x xs ih =>
    intro b hb
    cases b with
    | nil => simp at hb
    | cons y ys =>
      simp only [List.length_cons, Nat.succ.injEq] at hb
      simp only [cmpTie, specLexCmp]
      rw [ih hb]

/--
C3 counterexample: on tiebreaker sequences of unequal length, `compare_hands`
truncates at the shorter list (Python `zip`), so it can return 0 although the
sequences differ and their lexicographic comparison is not 0.
-/
theorem compare_hands_zip_counterexample :
    compare_hands (HandRank.PAIR, [5]) (HandRank.PAIR, [5, 3]) = 0
      ∧ specLexCmp [5] [5, 3] = -1
      ∧ (([5] : List Nat) == [5, 3]) = false := by decide

/--
C3 (amended): for evaluated hands whose tiebreaker sequences have equal length
— which holds for all `evaluate_hand` results of equal category —
`compare_hands` returns +1 when the first category ordinal is larger, -1 when
smaller, the lexicographic comparison of the tiebreakers on equal categories,
and 0 exactly when category and every tiebreaker element match.
-/
theorem compare_hands_spec (a b : HandRank × List Nat) (hlen : a.2.length = b.2.length) :
    (b.1.val < a.1.val → compare_hands a b = 1)
    ∧ (a.1.val < b.1.val → compare_hands a b = -1)
    ∧ (a.1 = b.1 → compare_hands a b = specLexCmp a.2 b.2)
    ∧ (compare_hands a b = 0 ↔ a.1 = b.1 ∧ a.2 = b.2) := by
  refine ⟨fun h => ?_, fun h => ?_, fun h => ?_, ?_⟩
  · rw [compare_hands, if_pos h]
  · rw [compare_hands, if_neg (Nat.lt_asymm h), if_pos h]
  · rw [compare_hands, if_neg (h ▸ Nat.lt_irrefl _), if_neg (h ▸ Nat.lt_irrefl _),
      cmpTie_eq_specLexCmp hlen]
  · rcases Nat.lt_trichotomy a.1.val b.1.val with hv | hv | hv
    · rw [compare_hands, if_neg (Nat.lt_asymm hv), if_pos hv]
      constructor
      · intro h; cases h
      · rintro ⟨h1, -⟩
        exact absurd (h1 ▸ hv) (Nat.lt_irrefl _)
    · have hcat : a.1 = b.1 := HandRank.val_injective hv
      rw [compare_hands, if_neg (hv ▸ Nat.lt_irrefl _), if_neg (hv ▸ Nat.lt_irrefl _),
        cmpTie_eq_specLexCmp hlen]
      rw [specLexCmp_eq_zero]
      exact ⟨fun h => ⟨hcat, h⟩, fun h => h.2⟩
    · rw [compare_hands, if_pos hv]
      constructor
      · intro h; cases h
      · rintro ⟨h1, -⟩
        exact absurd (h1 ▸ hv) (Nat.lt_irrefl _)

/-- Witness for the amended C3 at concrete equal-length hands. -/
theorem compare_hands_spec_witness :
    ((HandRank.PAIR : HandRank).val < (HandRank.PAIR : HandRank).val →
        compare_hands (HandRank.PAIR, [14, 9, 3, 2]) (HandRank.PAIR, [13, 9, 3, 2]) = 1)
    ∧ ((HandRank.PAIR : HandRank).val < (HandRank.PAIR : HandRank).val →
        compare_hands (HandRank.PAIR, [14, 9, 3, 2]) (HandRank.PAIR, [13, 9, 3, 2]) = -1)
    ∧ ((HandRank.PAIR : HandRank) = HandRank.PAIR →
        compare_hands (HandRank.PAIR, [14, 9, 3, 2]) (HandRank.PAIR, [13, 9, 3, 2])
          = specLexCmp [14, 9, 3, 2] [13, 9, 3, 2])
    ∧ (compare_hands (HandRank.PAIR, [14, 9, 3, 2]) (HandRank.PAIR, [13, 9, 3, 2]) = 0
        ↔ (HandRank.PAIR : HandRank) = HandRank.PAIR
          ∧ ([14, 9, 3, 2] : List Nat) = [13, 9, 3, 2]) :=
  compare_hands_spec (HandRank.PAIR, [14, 9, 3, 2]) (HandRank.PAIR, [13, 9, 3, 2])
    (by decide)

/-! ### `best_hand` is the maximum over the 21 five-card subsets -/

/-- The strict "beats" order used by `best_hand`'s loop. -/
def HandGt (x y : HandRank × List Nat) : Prop := betterThan x.1 x.2 y = true

theorem handGt_iff {x y : HandRank × List Nat} :
    HandGt x y ↔ y.1.val < x.1.val ∨ (x.1.val = y.1.val ∧ pyListLt y.2 x.2 = true) := by
  simp [HandGt, betterThan, Bool.or_eq_true, Bool.and_eq_true, beq_iff_eq,
    decide_eq_true_eq]

theorem handGt_irrefl (x : HandRank × List Nat) : ¬ HandGt x x := by
  rw [handGt_iff]
  rintro (h | ⟨-, h⟩)
  · exact Nat.lt_irrefl _ h
  · rw [pyListLt_irrefl] at h
    cases h

theorem handGt_trans {x y z : HandRank × List Nat} :
    HandGt x y → HandGt y z → HandGt x z := by
  rw [handGt_iff, handGt_iff, handGt_iff]
  rintro (h1 | ⟨h1, h1t⟩) (h2 | ⟨h2, h2t⟩)
  · exact Or.inl (Nat.lt_trans h2 h1)
  · exact Or.inl (h2 ▸ h1)
  · exact Or.inl (h1 ▸ h2)
  · exact Or.inr ⟨h1.trans h2, pyListLt_trans h2t h1t⟩

theorem bestStep_eq_some {best : HandRank × List Nat} {s : List Card}
    {rank : HandRank} {tb : List Nat} (he : evaluate_hand s = some (rank, tb)) :
    bestStep best s = if betterThan rank tb best then (rank, tb) else best := by
  unfold bestStep
  rw [he]

theorem bestStep_eq_none {best : HandRank × List Nat} {s : List Card}
    (he : evaluate_hand s = none) : bestStep best s = best := by
  unfold bestStep
  rw [he]

theorem bestStep_cases (best : HandRank × List Nat) (s : List Card) :
    bestStep best s = best ∨
      (evaluate_hand s = some (bestStep best s) ∧ HandGt (bestStep best s) best) := by
  cases he : evaluate_hand s with
  | none => exact Or.inl (bestStep_eq_none he)
  | some e =>
    obtain ⟨rank, tb⟩ := e
    by_cases hb : betterThan rank tb best = true
    · rw [bestStep_eq_some he, if_pos hb]
      exact Or.inr ⟨rfl, hb⟩
    · rw [bestStep_eq_some he, if_neg hb]
      exact Or.inl rfl

theorem bestStep_preserves {x best : HandRank × List Nat} {s : List Card}
    (h : ¬ HandGt x best) : ¬ HandGt x (bestStep best s) := by
  rcases bestStep_cases best s with heq | ⟨-, hgt⟩
  · rw [heq]; exact h
  · intro hx
    exact h (handGt_trans hx hgt)

theorem bestStep_not_gt (best : HandRank × List Nat) {s : List Card}
    {e : HandRank × List Nat} (he : evaluate_hand s = some e) :
    ¬ HandGt e (bestStep best s) := by
  obtain ⟨rank, tb⟩ := e
  by_cases hb : betterThan rank tb best = true
  · rw [bestStep_eq_some he, if_pos hb]
    exact handGt_irrefl _
  · rw [bestStep_eq_some he, if_neg hb]
    exact hb

theorem foldl_bestStep_spec (hands : List (List Card)) :
    ∀ init : HandRank × List Nat,
      (hands.foldl bestStep init = init ∨
        ∃ s ∈ hands, evaluate_hand s = some (hands.foldl bestStep init))
      ∧ (∀ x, ¬ HandGt x init → ¬ HandGt x (hands.foldl bestStep init))
      ∧ (∀ s ∈ hands, ∀ e, evaluate_hand s = some e →
          ¬ HandGt e (hands.foldl bestStep init)) := by
  induction hands with
  | nil =>
    intro init
    exact ⟨Or.inl rfl, fun x h => h, by simp⟩
  | cons h t ih =>
    intro init
    obtain ⟨ih1, ih2, ih3⟩ := ih (bestStep init h)
    rw [List.foldl_cons]
    refine ⟨?_, ?_, ?_⟩
    · rcases ih1 with heq | ⟨s, hs, hes⟩
      · rcases bestStep_cases init h with hb | ⟨hbe, -⟩
        · exact Or.inl (by rw [heq, hb])
        · exact Or.inr ⟨h, List.mem_cons_self h t, by rw [heq]; exact hbe⟩
      · exact Or.inr ⟨s, List.mem_cons_of_mem h hs, hes⟩
    · intro x hx
      exact ih2 x (bestStep_preserves hx)
    · intro s hs e he
      rcases List.mem_cons.mp hs with rfl | hs
      · exact ih2 e (bestStep_not_gt init he)
      · exact ih3 s hs e he

theorem length_of_mem_combos : ∀ {n : Nat} {l s : List α}, s ∈ combos n l → s.length = n := by
  intro n
  induction n with
  | zero =>
    intro l s hs
    simp only [combos, List.mem_singleton] at hs
    rw [hs]
    rfl
  | succ n ih =>
    intro l
    induction l with
    | nil => intro s hs; simp [combos] at hs
    | cons x xs ihl =>
      intro s hs
      simp only [combos, List.mem_append, List.mem_map] at hs
      rcases hs with ⟨a, ha, rfl⟩ | hs
      · simp [ih ha]
      · exact ihl hs

theorem combos_ne_nil : ∀ {n : Nat} {l : List α}, n ≤ l.length → combos n l ≠ [] := by
  intro n
  induction n with
  | zero => intro l _; simp [combos]
  | succ n ih =>
    intro l hl
    cases l with
    | nil => simp at hl
    | cons x xs =>
      simp only [List.length_cons, Nat.succ_le_succ_iff] at hl
      simp only [combos, ne_eq, List.append_eq_nil, List.map_eq_nil_iff, not_and]
      intro hc
      exact absurd hc (ih hl)

theorem HandRank.val_pos (r : HandRank) : 1 ≤ r.val := by
  cases r <;> decide

theorem eval_isSome_of_length {s : List Card} (h5 : s.length = 5) :
    ∃ e, evaluate_hand s = some e := by
  rw [evaluate_hand, if_pos h5]
  exact ⟨_, rfl⟩

theorem best_hand_none_iff (hole community : List Card) :
    best_hand hole community = none ↔ (hole ++ community).length ≠ 7 := by
  by_cases h7 : (hole ++ community).length = 7 <;> simp [best_hand, h7]

/--
C2: `best_hand` fails exactly when the inputs do not total 7 cards, and on 2
hole plus 5 community cards it returns an evaluation of one of the 21
five-card subsets that is maximal: no subset evaluates to a higher category,
and `compare_hands` never ranks a subset's evaluation above the result.
-/
theorem best_hand_is_max :
    (∀ hole community : List Card,
        best_hand hole community = none ↔ (hole ++ community).length ≠ 7)
    ∧ ∀ hole community : List Card, hole.length = 2 → community.length = 5 →
        (hole ++ community).Nodup →
        ∀ bh, best_hand hole community = some bh →
          (∃ s ∈ combos 5 (hole ++ community), evaluate_hand s = some bh)
          ∧ ∀ s ∈ combos 5 (hole ++ community), ∀ e, evaluate_hand s = some e →
              e.1.val ≤ bh.1.val ∧ 0 ≤ compare_hands bh e := by
  constructor
  · exact best_hand_none_iff
  · intro hole community h2 h5 hnd bh hbh
    have h7 : (hole ++ community).length = 7 := by rw [List.length_append, h2, h5]
    have hunf : best_hand hole community
        = some ((combos 5 (hole ++ community)).foldl bestStep (HandRank.HIGH_CARD, [])) := by
      simp [best_hand, h7]
    rw [hunf] at hbh
    have hbh2 : bh = (combos 5 (hole ++ community)).foldl bestStep (HandRank.HIGH_CARD, []) :=
      (Option.some.inj hbh).symm
    obtain ⟨f1, f2, f3⟩ := foldl_bestStep_spec (combos 5 (hole ++ community))
      (HandRank.HIGH_CARD, [])
    have hmem : ∃ s ∈ combos 5 (hole ++ community), evaluate_hand s = some bh := by
      rcases f1 with heq | hex
      · exfalso
        obtain ⟨s0, hs0⟩ : ∃ s0, s0 ∈ combos 5 (hole ++ community) := by
          have hnn := @combos_ne_nil Card 5 (hole ++ community) (by rw [h7]; omega)
          cases hc : combos 5 (hole ++ community) with
          | nil => exact absurd hc hnn
          | cons a t => exact ⟨a, List.mem_cons_self a t⟩
        have h5s : s0.length = 5 := length_of_mem_combos hs0
        obtain ⟨e, he⟩ := eval_isSome_of_length h5s
        have hng := f3 s0 hs0 e he
        rw [heq] at hng
        apply hng
        rw [handGt_iff]
        rcases Nat.lt_or_ge 1 e.1.val with hv | hv
        · exact Or.inl hv
        · have hv1 : e.1.val = 1 := Nat.le_antisymm hv (HandRank.val_pos e.1)
          refine Or.inr ⟨hv1, ?_⟩
          have hcat : e.1 = HandRank.HIGH_CARD := HandRank.val_injective (by rw [hv1]; rfl)
          have hlen := eval_tbLen h5s he
          rw [hcat] at hlen
          cases he2 : e.2 with
          | nil => rw [he2] at hlen; simp [tbLen] at hlen
          | cons a t => simp [pyListLt]
      · rw [← hbh2] at hex
        exact hex
    refine ⟨hmem, ?_⟩
    intro s hs e he
    have hng := f3 s hs e he
    rw [← hbh2, handGt_iff] at hng
    have hle : e.1.val ≤ bh.1.val := by
      rcases Nat.lt_or_ge bh.1.val e.1.val with hv | hv
      · exact absurd (Or.inl hv) hng
      · exact hv
    refine ⟨hle, ?_⟩
    rcases Nat.lt_or_ge e.1.val bh.1.val with hv | hv
    · rw [compare_hands, if_pos hv]
      decide
    · have hveq : e.1.val = bh.1.val := Nat.le_antisymm hle hv
      have hcat : e.1 = bh.1 := HandRank.val_injective hveq
      obtain ⟨s1, hs1, hes1⟩ := hmem
      have hlenb : bh.2.length = tbLen bh.1 := eval_tbLen (length_of_mem_combos hs1) hes1
      have hlene : e.2.length = tbLen e.1 := eval_tbLen (length_of_mem_combos hs) he
      have hlen : bh.2.length = e.2.length := by rw [hlenb, hlene, hcat]
      rw [compare_hands, if_neg (hveq ▸ Nat.lt_irrefl _), if_neg (hveq ▸ Nat.lt_irrefl _),
        cmpTie_eq_specLexCmp hlen]
      have hnlex : ¬ pyListLt bh.2 e.2 = true := fun hx => hng (Or.inr ⟨hveq, hx⟩)
      rcases pyListLt_trichotomy bh.2 e.2 with hx | hx | hx
      · exact absurd hx hnlex
      · rw [(specLexCmp_eq_zero bh.2 e.2).mpr hx]
      · rw [(specLexCmp_eq_one bh.2 e.2).mpr hx]
        decide

/-- Witness for C2 at a concrete 7-card deal. -/
theorem best_hand_is_max_witness :
    (best_hand [] [] = none ↔ (([] : List Card) ++ []).length ≠ 7)
    ∧ ((∃ s ∈ combos 5
          ([⟨Rank.ACE, Suit.SPADES⟩, ⟨Rank.ACE, Suit.HEARTS⟩] ++
           [⟨Rank.ACE, Suit.CLUBS⟩, ⟨Rank.KING, Suit.SPADES⟩, ⟨Rank.KING, Suit.HEARTS⟩,
            ⟨Rank.NINE, Suit.DIAMONDS⟩, ⟨Rank.FOUR, Suit.CLUBS⟩]),
          evaluate_hand s = some (HandRank.FULL_HOUSE, [14, 13]))
        ∧ ∀ s ∈ combos 5
            ([⟨Rank.ACE, Suit.SPADES⟩, ⟨Rank.ACE, Suit.HEARTS⟩] ++
             [⟨Rank.ACE, Suit.CLUBS⟩, ⟨Rank.KING, Suit.SPADES⟩, ⟨Rank.KING, Suit.HEARTS⟩,
              ⟨Rank.NINE, Suit.DIAMONDS⟩, ⟨Rank.FOUR, Suit.CLUBS⟩]),
            ∀ e, evaluate_hand s = some e →
              e.1.val ≤ (HandRank.FULL_HOUSE : HandRank).val
                ∧ 0 ≤ compare_hands (HandRank.FULL_HOUSE, [14, 13]) e) :=
  ⟨best_hand_is_max.1 [] [],
   best_hand_is_max.2
     [⟨Rank.ACE, Suit.SPADES⟩, ⟨Rank.ACE, Suit.HEARTS⟩]
     [⟨Rank.ACE, Suit.CLUBS⟩, ⟨Rank.KING, Suit.SPADES⟩, ⟨Rank.KING, Suit.HEARTS⟩,
      ⟨Rank.NINE, Suit.DIAMONDS⟩, ⟨Rank.FOUR, Suit.CLUBS⟩]
     (by decide) (by decide) (by decide)
     (HandRank.FULL_HOUSE, [14, 13]) (by decide)⟩

/-! ### Ground-truth preflop odds and hole-card parsing -/

/--
The ground-truth preflop equity table `PREFLOP_ODDS`, as an association
list keyed by (high rank symbol, low rank symbol, suited); the float
literals of the source are modelled as exact decimal rationals.
-/
def PREFLOP_ODDS : List ((Char × Char × Bool) × ℚ) :=
  [(('A', 'A', false), 0.853),
(('K', 'K', false), 0.826),
(('Q', 'Q', false), 0.799),
(('J', 'J', false), 0.773),
(('T', 'T', false), 0.747),
(('9', '9', false), 0.720),
(('8', '8', false), 0.693),
(('7', '7', false), 0.666),
(('6', '6', false), 0.639),
(('5', '5', false), 0.612),
(('4', '4', false), 0.585),
(('3', '3', false), 0.559),
(('2', '2', false), 0.532),
(('A', 'K', true), 0.669),
(('A', 'K', false), 0.653),
(('A', 'Q', true), 0.660),
(('A', 'Q', false), 0.643),
(('A', 'J', true), 0.651),
(('A', 'J', false), 0.633),
(('A', 'T', true), 0.641),
(('A', 'T', false), 0.622),
(('A', '9', true), 0.629),
(('A', '9', false), 0.609),
(('A', '8', true), 0.618),
(('A', '8', false), 0.597),
(('A', '7', true), 0.607),
(('A', '7', false), 0.585),
(('A', '6', true), 0.596),
(('A', '6', false), 0.573),
(('A', '5', true), 0.587),
(('A', '5', false), 0.563),
(('A', '4', true), 0.578),
(('A', '4', false), 0.554),
(('A', '3', true), 0.570),
(('A', '3', false), 0.545),
(('A', '2', true), 0.562),
(('A', '2', false), 0.537),
(('K', 'Q', true), 0.628),
(('K', 'Q', false), 0.610),
(('K', 'J', true), 0.619),
(('K', 'J', false), 0.600),
(('K', 'T', true), 0.609),
(('K', 'T', false), 0.589),
(('K', '9', true), 0.597),
(('K', '9', false), 0.576),
(('K', '8', true), 0.586),
(('K', '8', false), 0.564),
(('K', '7', true), 0.575),
(('K', '7', false), 0.552),
(('K', '6', true), 0.564),
(('K', '6', false), 0.540),
(('K', '5', true), 0.554),
(('K', '5', false), 0.529),
(('K', '4', true), 0.544),
(('K', '4', false), 0.519),
(('K', '3', true), 0.535),
(('K', '3', false), 0.509),
(('K', '2', true), 0.527),
(('K', '2', false), 0.500),
(('Q', 'J', true), 0.597),
(('Q', 'J', false), 0.579),
(('Q', 'T', true), 0.587),
(('Q', 'T', false), 0.568),
(('Q', '9', true), 0.575),
(('Q', '9', false), 0.555),
(('Q', '8', true), 0.564),
(('Q', '8', false), 0.543),
(('Q', '7', true), 0.553),
(('Q', '7', false), 0.531),
(('Q', '6', true), 0.542),
(('Q', '6', false), 0.519),
(('Q', '5', true), 0.532),
(('Q', '5', false), 0.508),
(('Q', '4', true), 0.522),
(('Q', '4', false), 0.498),
(('Q', '3', true), 0.513),
(('Q', '3', false), 0.488),
(('Q', '2', true), 0.505),
(('Q', '2', false), 0.479),
(('J', 'T', true), 0.565),
(('J', 'T', false), 0.546),
(('J', '9', true), 0.553),
(('J', '9', false), 0.533),
(('J', '8', true), 0.542),
(('J', '8', false), 0.521),
(('J', '7', true), 0.531),
(('J', '7', false), 0.509),
(('J', '6', true), 0.520),
(('J', '6', false), 0.498),
(('J', '5', true), 0.510),
(('J', '5', false), 0.487),
(('J', '4', true), 0.500),
(('J', '4', false), 0.477),
(('J', '3', true), 0.491),
(('J', '3', false), 0.467),
(('J', '2', true), 0.483),
(('J', '2', false), 0.458),
(('T', '9', true), 0.531),
(('T', '9', false), 0.511),
(('T', '8', true), 0.520),
(('T', '8', false), 0.499),
(('T', '7', true), 0.509),
(('T', '7', false), 0.488),
(('T', '6', true), 0.498),
(('T', '6', false), 0.476),
(('T', '5', true), 0.488),
(('T', '5', false), 0.465),
(('T', '4', true), 0.478),
(('T', '4', false), 0.455),
(('T', '3', true), 0.469),
(('T', '3', false), 0.445),
(('T', '2', true), 0.461),
(('T', '2', false), 0.436),
(('9', '8', true), 0.498),
(('9', '8', false), 0.477),
(('9', '7', true), 0.487),
(('9', '7', false), 0.466),
(('9', '6', true), 0.476),
(('9', '6', false), 0.454),
(('9', '5', true), 0.466),
(('9', '5', false), 0.443),
(('9', '4', true), 0.456),
(('9', '4', false), 0.433),
(('9', '3', true), 0.447),
(('9', '3', false), 0.423),
(('9', '2', true), 0.439),
(('9', '2', false), 0.414),
(('8', '7', true), 0.465),
(('8', '7', false), 0.444),
(('8', '6', true), 0.454),
(('8', '6', false), 0.432),
(('8', '5', true), 0.444),
(('8', '5', false), 0.421),
(('8', '4', true), 0.434),
(('8', '4', false), 0.411),
(('8', '3', true), 0.425),
(('8', '3', false), 0.401),
(('8', '2', true), 0.417),
(('8', '2', false), 0.392),
(('7', '6', true), 0.432),
(('7', '6', false), 0.410),
(('7', '5', true), 0.422),
(('7', '5', false), 0.399),
(('7', '4', true), 0.412),
(('7', '4', false), 0.389),
(('7', '3', true), 0.403),
(('7', '3', false), 0.379),
(('7', '2', true), 0.395),
(('7', '2', false), 0.370),
(('6', '5', true), 0.400),
(('6', '5', false), 0.377),
(('6', '4', true), 0.390),
(('6', '4', false), 0.367),
(('6', '3', true), 0.381),
(('6', '3', false), 0.357),
(('6', '2', true), 0.373),
(('6', '2', false), 0.348),
(('5', '4', true), 0.368),
(('5', '4', false), 0.345),
(('5', '3', true), 0.359),
(('5', '3', false), 0.335),
(('5', '2', true), 0.351),
(('5', '2', false), 0.326),
(('4', '3', true), 0.337),
(('4', '3', false), 0.313),
(('4', '2', true), 0.329),
(('4', '2', false), 0.304),
(('3', '2', true), 0.307),
(('3', '2', false), 0.282)]

/-- `card_to_rank_str`: the rank symbol of a card (total: rank values are 2..14). -/
def card_to_rank_str (card : Card) : Char :=
  match card.rank.val with
  | 14 => 'A' | 13 => 'K' | 12 => 'Q' | 11 => 'J' | 10 => 'T'
  | 9 => '9' | 8 => '8' | 7 => '7' | 6 => '6' | 5 => '5' | 4 => '4' | 3 => '3'
  | _ => '2'

/--
`get_preflop_odds`: fails unless given exactly 2 cards; orders the rank
symbols (higher first), forms the (high, low, suited) key, and looks it up in
`PREFLOP_ODDS`, defaulting to 0.5.
-/
def get_preflop_odds (hole_cards : List Card) : Option ℚ :=
  if hole_cards.length ≠ 2 then none
  else match hole_cards with
    | [card1, card2] =>
      let rank1_str := card_to_rank_str card1
      let rank2_str := card_to_rank_str card2
      let key1 := if card1.rank.val < card2.rank.val then rank2_str else rank1_str
      let key2 := if card1.rank.val < card2.rank.val then rank1_str else rank2_str
      let is_suited : Bool := card1.suit == card2.suit
      some (((PREFLOP_ODDS.find? fun e => e.1 = (key1, key2, is_suited)).map
        Prod.snd).getD 0.5)
    | _ => none

/-- Spec: the normalized lookup key (higher-rank symbol, lower-rank symbol, suited). -/
def specPreflopKey (c1 c2 : Card) : Char × Char × Bool :=
  let hi := if c2.rank.val ≤ c1.rank.val then c1 else c2
  let lo := if c2.rank.val ≤ c1.rank.val then c2 else c1
  (card_to_rank_str hi, card_to_rank_str lo, c1.suit == c2.suit)

/-- Spec: the table value of the normalized key, 0.5 when the key is absent. -/
def specPreflopOdds (c1 c2 : Card) : ℚ :=
  ((PREFLOP_ODDS.find? fun e => e.1 = specPreflopKey c1 c2).map Prod.snd).getD 0.5

/--
C7: `get_preflop_odds` normalizes two hole cards to (higher-rank symbol,
lower-rank symbol, suited) and looks the key up, returning 0.5 when absent;
in particular 0.853 for Ace-Ace offsuit-pair and 0.307 for suited Three-Two;
and it fails exactly when not given 2 cards.
-/
theorem get_preflop_odds_spec :
    (∀ c1 c2 : Card, get_preflop_odds [c1, c2] = some (specPreflopOdds c1 c2))
    ∧ get_preflop_odds [⟨Rank.ACE, Suit.SPADES⟩, ⟨Rank.ACE, Suit.HEARTS⟩] = some 0.853
    ∧ get_preflop_odds [⟨Rank.THREE, Suit.SPADES⟩, ⟨Rank.TWO, Suit.SPADES⟩] = some 0.307
    ∧ ∀ hole_cards : List Card,
        (get_preflop_odds hole_cards).isSome = (hole_cards.length == 2) := by
  refine ⟨?_, by with_unfolding_all decide, by with_unfolding_all decide, ?_⟩
  · intro c1 c2
    have hlen : ¬ ([c1, c2].length ≠ 2) := fun h => h rfl
    rw [get_preflop_odds, if_neg hlen]
    rcases Nat.lt_or_ge c1.rank.val c2.rank.val with hlt | hge
    · have h2 : ¬ c2.rank.val ≤ c1.rank.val := Nat.not_le_of_lt hlt
      simp only [specPreflopOdds, specPreflopKey, if_pos hlt, if_neg h2]
    · have h2 : c2.rank.val ≤ c1.rank.val := hge
      simp only [specPreflopOdds, specPreflopKey, if_neg (Nat.not_lt_of_le hge), if_pos h2]
  · intro hole_cards
    rcases hole_cards with - | ⟨a, - | ⟨b, - | ⟨c, t⟩⟩⟩
    · rfl
    · rfl
    · rfl
    · have hlen : ¬ ((a :: b :: c :: t).length = 2) := by simp
      simp [get_preflop_odds, hlen]

/-- The `rank_map` of `parse_hole_cards`. -/
def rank_map (ch : Char) : Option Rank :=
  if ch = 'A' then some Rank.ACE else if ch = 'K' then some Rank.KING
  else if ch = 'Q' then some Rank.QUEEN else if ch = 'J' then some Rank.JACK
  else if ch = 'T' then some Rank.TEN else if ch = '9' then some Rank.NINE
  else if ch = '8' then some Rank.EIGHT else if ch = '7' then some Rank.SEVEN
  else if ch = '6' then some Rank.SIX else if ch = '5' then some Rank.FIVE
  else if ch = '4' then some Rank.FOUR else if ch = '3' then some Rank.THREE
  else if ch = '2' then some Rank.TWO else none

/-- The `suit_map` of `parse_hole_cards`. -/
def suit_map (ch : Char) : Option Suit :=
  if ch = 's' then some Suit.SPADES else if ch = 'h' then some Suit.HEARTS
  else if ch = 'd' then some Suit.DIAMONDS else if ch = 'c' then some Suit.CLUBS
  else none

/-- The two failure modes of `parse_hole_cards` (both `ValueError` in Python). -/
inductive ParseError where
  | wrongLength
  | invalidChar (c : Char)
deriving DecidableEq, Repr

/--
`parse_hole_cards`: exactly 4 characters; positions 0 and 2 are rank symbols
(uppercased before lookup), positions 1 and 3 suit symbols (lowercased); the
first failing lookup, in evaluation order, names the offending character.
-/
def parse_hole_cards (card_str : String) : Except ParseError (List Card) :=
  if card_str.toList.length ≠ 4 then .error .wrongLength
  else match card_str.toList with
    | [a, b, c, d] =>
      match rank_map a.toUpper with
      | none => .error (.invalidChar a.toUpper)
      | some r1 =>
        match suit_map b.toLower with
        | none => .error (.invalidChar b.toLower)
        | some s1 =>
          match rank_map c.toUpper with
          | none => .error (.invalidChar c.toUpper)
          | some r2 =>
            match suit_map d.toLower with
            | none => .error (.invalidChar d.toLower)
            | some s2 => .ok [⟨r1, s1⟩, ⟨r2, s2⟩]
    | _ => .error .wrongLength

/-- Spec: rank symbols are 2-9, T, J, Q, K, A, case-insensitively. -/
def specIsRankChar (ch : Char) : Bool :=
  ['2', '3', '4', '5', '6', '7', '8', '9', 'T', 'J', 'Q', 'K', 'A'].contains ch.toUpper

/-- Spec: suit symbols are s, h, d, c, case-insensitively. -/
def specIsSuitChar (ch : Char) : Bool :=
  ['s', 'h', 'd', 'c'].contains ch.toLower

theorem rank_map_isSome (ch : Char) :
    (rank_map ch).isSome = (['2', '3', '4', '5', '6', '7', '8', '9', 'T', 'J', 'Q', 'K', 'A'] : List Char).contains ch := by
  rw [rank_map]
  by_cases h0 : ch = 'A'
  · subst h0; rfl
  rw [if_neg h0]
  by_cases h1 : ch = 'K'
  · subst h1; rfl
  rw [if_neg h1]
  by_cases h2 : ch = 'Q'
  · subst h2; rfl
  rw [if_neg h2]
  by_cases h3 : ch = 'J'
  · subst h3; rfl
  rw [if_neg h3]
  by_cases h4 : ch = 'T'
  · subst h4; rfl
  rw [if_neg h4]
  by_cases h5 : ch = '9'
  · subst h5; rfl
  rw [if_neg h5]
  by_cases h6 : ch = '8'
  · subst h6; rfl
  rw [if_neg h6]
  by_cases h7 : ch = '7'
  · subst h7; rfl
  rw [if_neg h7]
  by_cases h8 : ch = '6'
  · subst h8; rfl
  rw [if_neg h8]
  by_cases h9 : ch = '5'
  · subst h9; rfl
  rw [if_neg h9]
  by_cases h10 : ch = '4'
  · subst h10; rfl
  rw [if_neg h10]
  by_cases h11 : ch = '3'
  · subst h11; rfl
  rw [if_neg h11]
  by_cases h12 : ch = '2'
  · subst h12; rfl
  rw [if_neg h12]
  show (false : Bool) = _
  symm
  simp only [List.contains_eq_any_beq, List.any_cons, List.any_nil,
    Bool.or_eq_false_iff, beq_eq_false_iff_ne]
  exact ⟨h12, h11, h10, h9, h8, h7, h6, h5, h4, h3, h2, h1, h0, trivial⟩

theorem suit_map_isSome (ch : Char) :
    (suit_map ch).isSome = (['s', 'h', 'd', 'c'] : List Char).contains ch := by
  rw [suit_map]
  by_cases h0 : ch = 's'
  · subst h0; rfl
  rw [if_neg h0]
  by_cases h1 : ch = 'h'
  · subst h1; rfl
  rw [if_neg h1]
  by_cases h2 : ch = 'd'
  · subst h2; rfl
  rw [if_neg h2]
  by_cases h3 : ch = 'c'
  · subst h3; rfl
  rw [if_neg h3]
  show (false : Bool) = _
  symm
  simp only [List.contains_eq_any_beq, List.any_cons, List.any_nil,
    Bool.or_eq_false_iff, beq_eq_false_iff_ne]
  exact ⟨h0, h1, h2, h3, trivial⟩

theorem specIsRankChar_eq (ch : Char) :
    specIsRankChar ch = (rank_map ch.toUpper).isSome :=
  (rank_map_isSome ch.toUpper).symm

theorem specIsSuitChar_eq (ch : Char) :
    specIsSuitChar ch = (suit_map ch.toLower).isSome :=
  (suit_map_isSome ch.toLower).symm

/-- Spec: a well-formed hole-card string — 4 characters, rank symbols at
positions 0 and 2 and suit symbols at positions 1 and 3. -/
def specWellFormed (text : String) : Bool :=
  match text.toList with
  | [a, b, c, d] => specIsRankChar a && specIsSuitChar b && specIsRankChar c && specIsSuitChar d
  | _ => false

theorem parse_eq_of_toList {text : String} {a b c d : Char} (htl : text.toList = [a, b, c, d]) :
    parse_hole_cards text =
      (match rank_map a.toUpper with
      | none => .error (.invalidChar a.toUpper)
      | some r1 => match suit_map b.toLower with
        | none => .error (.invalidChar b.toLower)
        | some s1 => match rank_map c.toUpper with
          | none => .error (.invalidChar c.toUpper)
          | some r2 => match suit_map d.toLower with
            | none => .error (.invalidChar d.toLower)
            | some s2 => .ok [⟨r1, s1⟩, ⟨r2, s2⟩]) := by
  rw [parse_hole_cards, htl]
  rfl

/--
C8: `parse_hole_cards` succeeds exactly on 4-character strings with rank
symbols at positions 0 and 2 and suit symbols at positions 1 and 3
(case-insensitively), returning the two cards so named; any other input
fails with the invalid-format error naming the offending character (or the
wrong-length error), as on the spec's four concrete examples.
-/
theorem parse_hole_cards_spec :
    (∀ text : String, (parse_hole_cards text).isOk = specWellFormed text)
    ∧ (∀ text : String, text.toList.length ≠ 4 →
        parse_hole_cards text = .error .wrongLength)
    ∧ (∀ (text : String) (a b c d : Char), text.toList = [a, b, c, d] →
        ∀ r1 s1 r2 s2, rank_map a.toUpper = some r1 → suit_map b.toLower = some s1 →
          rank_map c.toUpper = some r2 → suit_map d.toLower = some s2 →
          parse_hole_cards text = .ok [⟨r1, s1⟩, ⟨r2, s2⟩])
    ∧ (∀ (text : String) (a b c d : Char), text.toList = [a, b, c, d] →
        ∀ e, parse_hole_cards text = .error (.invalidChar e) →
          (specIsRankChar a = false ∧ e = a.toUpper)
          ∨ (specIsSuitChar b = false ∧ e = b.toLower)
          ∨ (specIsRankChar c = false ∧ e = c.toUpper)
          ∨ (specIsSuitChar d = false ∧ e = d.toLower))
    ∧ parse_hole_cards "AsKh" = .ok [⟨Rank.ACE, Suit.SPADES⟩, ⟨Rank.KING, Suit.HEARTS⟩]
    ∧ parse_hole_cards "TcTd" = .ok [⟨Rank.TEN, Suit.CLUBS⟩, ⟨Rank.TEN, Suit.DIAMONDS⟩]
    ∧ parse_hole_cards "XsKh" = .error (.invalidChar 'X')
    ∧ parse_hole_cards "Ah" = .error .wrongLength := by
  refine ⟨?_, ?_, ?_, ?_, by rfl, by rfl, by rfl, by rfl⟩
  · intro text
    match htl : text.toList with
    | [] => rw [parse_hole_cards, specWellFormed, htl]; rfl
    | [a] => rw [parse_hole_cards, specWellFormed, htl]; rfl
    | [a, b] => rw [parse_hole_cards, specWellFormed, htl]; rfl
    | [a, b, c] => rw [parse_hole_cards, specWellFormed, htl]; rfl
    | a :: b :: c :: d :: e :: t => rw [parse_hole_cards, specWellFormed, htl]; rfl
    | [a, b, c, d] =>
      rw [parse_eq_of_toList htl]
      simp only [specWellFormed, htl, specIsRankChar_eq, specIsSuitChar_eq]
      cases rank_map a.toUpper with
      | none => rfl
      | some r1 =>
        cases suit_map b.toLower with
        | none => rfl
        | some s1 =>
          cases rank_map c.toUpper with
          | none => rfl
          | some r2 =>
            cases suit_map d.toLower with
            | none => rfl
            | some s2 => rfl
  · intro text hlen
    rw [parse_hole_cards, if_pos hlen]
  · intro text a b c d htl r1 s1 r2 s2 hra hrb hrc hrd
    rw [parse_eq_of_toList htl, hra, hrb, hrc, hrd]
  · intro text a b c d htl e he
    rw [parse_eq_of_toList htl] at he
    cases hra : rank_map a.toUpper with
    | none =>
      rw [hra] at he
      refine Or.inl ⟨?_, (ParseError.invalidChar.inj (Except.error.inj he)).symm⟩
      rw [specIsRankChar_eq, hra]
      rfl
    | some r1 =>
      rw [hra] at he
      cases hrb : suit_map b.toLower with
      | none =>
        rw [hrb] at he
        refine Or.inr (Or.inl ⟨?_, (ParseError.invalidChar.inj (Except.error.inj he)).symm⟩)
        rw [specIsSuitChar_eq, hrb]
        rfl
      | some s1 =>
        rw [hrb] at he
        cases hrc : rank_map c.toUpper with
        | none =>
          rw [hrc] at he
          refine Or.inr (Or.inr (Or.inl ⟨?_, (ParseError.invalidChar.inj (Except.error.inj he)).symm⟩))
          rw [specIsRankChar_eq, hrc]
          rfl
        | some r2 =>
          rw [hrc] at he
          cases hrd : suit_map d.toLower with
          | none =>
            rw [hrd] at he
            refine Or.inr (Or.inr (Or.inr ⟨?_, (ParseError.invalidChar.inj (Except.error.inj he)).symm⟩))
            rw [specIsSuitChar_eq, hrd]
            rfl
          | some s2 =>
            rw [hrd] at he
            cases he

/-- Witness for C8 at the spec's concrete examples. -/
theorem parse_hole_cards_spec_witness :
    parse_hole_cards "Ah" = .error ParseError.wrongLength
    ∧ parse_hole_cards "AsKh"
        = .ok [⟨Rank.ACE, Suit.SPADES⟩, ⟨Rank.KING, Suit.HEARTS⟩]
    ∧ ((specIsRankChar 'X' = false ∧ 'X' = Char.toUpper 'X')
        ∨ (specIsSuitChar 's' = false ∧ 'X' = Char.toLower 's')
        ∨ (specIsRankChar 'K' = false ∧ 'X' = Char.toUpper 'K')
        ∨ (specIsSuitChar 'h' = false ∧ 'X' = Char.toLower 'h')) :=
  ⟨parse_hole_cards_spec.2.1 "Ah" (by decide),
   parse_hole_cards_spec.2.2.1 "AsKh" 'A' 's' 'K' 'h' rfl
     Rank.ACE Suit.SPADES Rank.KING Suit.HEARTS rfl rfl rfl rfl,
   parse_hole_cards_spec.2.2.2.1 "XsKh" 'X' 's' 'K' 'h' rfl 'X' rfl⟩

/--
C10: `parse_hole_cards` performs no duplicate-card check — "AsAs" parses
successfully to two equal cards, violating the no-duplicate assumption of
the rest of the system.
-/
theorem parse_hole_cards_no_duplicate_check :
    parse_hole_cards "AsAs"
        = .ok [⟨Rank.ACE, Suit.SPADES⟩, ⟨Rank.ACE, Suit.SPADES⟩]
      ∧ ¬ ([⟨Rank.ACE, Suit.SPADES⟩, ⟨Rank.ACE, Suit.SPADES⟩] : List Card).Nodup :=
  ⟨by rfl, by decide⟩

/-! ### Deal state (`GameState`) -/

/-- The stage marker strings of the game state machine. -/
inductive Stage where
  | preflop | flop_set | turn_set | river_set | showdown
deriving DecidableEq, Repr

/--
`class GameState`: player hole cards, lazily assigned opponent hole cards and
community cards, a stage marker, and the set of all known cards (a Python
`set`, modelled as a `Finset`).
-/
structure GameState where
  player_hole_cards : List Card
  opponent_hole_cards : Option (List Card)
  flop : Option (List Card)
  turn : Option Card
  river : Option Card
  stage : Stage
  known_cards : Finset Card
deriving DecidableEq

/-- `GameState.__init__(player_hole_cards)`. -/
def GameState.init (player_hole_cards : List Card) : GameState :=
  { player_hole_cards := player_hole_cards
    opponent_hole_cards := none
    flop := none
    turn := none
    river := none
    stage := Stage.preflop
    known_cards := player_hole_cards.toFinset }

/--
`get_community_cards`: flop, then turn, then river, skipping unpopulated
fields (a `None` flop and an empty flop list contribute nothing alike, since
Python tests the field's truthiness).
-/
def GameState.get_community_cards (s : GameState) : List Card :=
  s.flop.getD [] ++ s.turn.toList ++ s.river.toList

/--
`evaluate_winner`: raises (`none`) unless the stage is showdown with exactly
5 community cards; also fails when opponent hole cards are unset (Python then
raises a `TypeError` inside `best_hand`); otherwise compares the two best
5-of-7 hands.
-/
def GameState.evaluate_winner (s : GameState) : Option Int :=
  if s.stage ≠ Stage.showdown then none
  else
    let community_cards := s.get_community_cards
    if community_cards.length ≠ 5 then none
    else match s.opponent_hole_cards with
      | none => none
      | some opp =>
        match best_hand s.player_hole_cards community_cards, best_hand opp community_cards with
        | some player_hand, some opponent_hand => some (compare_hands player_hand opponent_hand)
        | _, _ => none

theorem best_hand_isSome {hole community : List Card}
    (h7 : (hole ++ community).length = 7) : ∃ bh, best_hand hole community = some bh := by
  cases hb : best_hand hole community with
  | some bh => exact ⟨bh, rfl⟩
  | none => exact absurd h7 ((best_hand_none_iff hole community).mp hb)

/-- `evaluate_winner`, unfolded without the intermediate `let`. -/
theorem evaluate_winner_unfold (s : GameState) :
    s.evaluate_winner =
      if s.stage ≠ Stage.showdown then none
      else if s.get_community_cards.length ≠ 5 then none
      else match s.opponent_hole_cards with
        | none => none
        | some opp =>
          match best_hand s.player_hole_cards s.get_community_cards,
                best_hand opp s.get_community_cards with
          | some ph, some oh => some (compare_hands ph oh)
          | _, _ => none := rfl

/--
C4: `evaluate_winner` succeeds exactly when the stage is showdown, exactly 5
community cards are present, and opponent hole cards are assigned; it then
returns `compare_hands` of the player's and the opponent's best 5-of-7 hands
(+1 player wins, -1 opponent wins, 0 tie).  The embedding is a pure function
of the state, so the state is left unchanged by construction.
-/
theorem evaluate_winner_spec (s : GameState) (hp : s.player_hole_cards.length = 2)
    (ho : ∀ opp, s.opponent_hole_cards = some opp → opp.length = 2) :
    ((s.evaluate_winner).isSome = true ↔
      s.stage = Stage.showdown ∧ s.get_community_cards.length = 5
        ∧ s.opponent_hole_cards.isSome = true)
    ∧ ∀ opp, s.opponent_hole_cards = some opp → s.stage = Stage.showdown →
        s.get_community_cards.length = 5 →
        ∃ ph oh, best_hand s.player_hole_cards s.get_community_cards = some ph
          ∧ best_hand opp s.get_community_cards = some oh
          ∧ s.evaluate_winner = some (compare_hands ph oh) := by
  have main : ∀ opp, s.opponent_hole_cards = some opp → s.stage = Stage.showdown →
      s.get_community_cards.length = 5 →
      ∃ ph oh, best_hand s.player_hole_cards s.get_community_cards = some ph
        ∧ best_hand opp s.get_community_cards = some oh
        ∧ s.evaluate_winner = some (compare_hands ph oh) := by
    intro opp hopp hst hc
    obtain ⟨ph, hph⟩ := @best_hand_isSome s.player_hole_cards s.get_community_cards
      (by rw [List.length_append, hp, hc])
    obtain ⟨oh, hoh⟩ := @best_hand_isSome opp s.get_community_cards
      (by rw [List.length_append, ho opp hopp, hc])
    refine ⟨ph, oh, hph, hoh, ?_⟩
    rw [evaluate_winner_unfold]
    simp only [hst, hc, hopp, hph, hoh, ne_eq, not_true_eq_false, if_false]
  refine ⟨⟨?_, ?_⟩, main⟩
  · intro hsome
    rw [evaluate_winner_unfold] at hsome
    by_cases hst : s.stage = Stage.showdown
    · by_cases hc : s.get_community_cards.length = 5
      · cases hopp : s.opponent_hole_cards with
        | none => simp [hst, hc, hopp] at hsome
        | some opp => exact ⟨hst, hc, rfl⟩
      · simp [hst, hc] at hsome
    · simp [hst] at hsome
  · rintro ⟨hst, hc, hopp⟩
    cases hox : s.opponent_hole_cards with
    | none => rw [hox] at hopp; cases hopp
    | some opp =>
      obtain ⟨ph, oh, -, -, hew⟩ := main opp hox hst hc
      rw [hew]
      rfl

/-- A concrete showdown state: both players hold straight flushes. -/
def witnessState : GameState :=
  { player_hole_cards := [⟨Rank.ACE, Suit.SPADES⟩, ⟨Rank.ACE, Suit.HEARTS⟩]
    opponent_hole_cards := some [⟨Rank.KING, Suit.SPADES⟩, ⟨Rank.KING, Suit.HEARTS⟩]
    flop := some [⟨Rank.QUEEN, Suit.SPADES⟩, ⟨Rank.JACK, Suit.SPADES⟩, ⟨Rank.TEN, Suit.SPADES⟩]
    turn := some ⟨Rank.NINE, Suit.SPADES⟩
    river := some ⟨Rank.EIGHT, Suit.SPADES⟩
    stage := Stage.showdown
    known_cards := ∅ }

/-- Witness for C4 at the concrete showdown state. -/
theorem evaluate_winner_spec_witness :
    ((witnessState.evaluate_winner).isSome = true ↔
      witnessState.stage = Stage.showdown ∧ witnessState.get_community_cards.length = 5
        ∧ witnessState.opponent_hole_cards.isSome = true)
    ∧ ∀ opp, witnessState.opponent_hole_cards = some opp →
        witnessState.stage = Stage.showdown →
        witnessState.get_community_cards.length = 5 →
        ∃ ph oh, best_hand witnessState.player_hole_cards witnessState.get_community_cards
            = some ph
          ∧ best_hand opp witnessState.get_community_cards = some oh
          ∧ witnessState.evaluate_winner = some (compare_hands ph oh) :=
  evaluate_winner_spec witnessState (by rfl)
    (fun opp h => by rw [← Option.some.inj h]; rfl)

/-! ### The MCTS engine

The standard library's randomness is modelled by an oracle `rand : Nat → Nat`,
an arbitrary stream of naturals consumed at increasing indices; every theorem
quantifies over all oracles.  `random.shuffle` is a Fisher–Yates walk driven
by the stream (any permutation is reachable), `random.sample(l, k)` is
shuffle-then-take, and `random.choice` picks the index `rand i % len`.
UCB1 scores are floats that are only compared; the arg-max outcome is
resolved by the oracle while the definedness of the `math.log` argument is
modelled exactly.
-/

/-- Fisher–Yates driven by the oracle, with fuel equal to the list length. -/
def fyAux (rand : Nat → Nat) : Nat → Nat → List α → List α
  | 0, _, l => l
  | _ + 1, _, [] => []
  | fuel + 1, i, x :: xs =>
    let l := x :: xs
    let j := rand i % l.length
    l.getD j x :: fyAux rand fuel (i + 1) (l.eraseIdx j)

/-- `random.shuffle`: returns the shuffled list and the next oracle index. -/
def shuffle (rand : Nat → Nat) (i : Nat) (l : List α) : List α × Nat :=
  (fyAux rand l.length i l, i + l.length)

/-- The 52-card enumeration order of `Deck.__init__` (suits outer, ranks inner). -/
def fullDeck : List Card :=
  [Suit.HEARTS, Suit.DIAMONDS, Suit.CLUBS, Suit.SPADES].flatMap fun s =>
    [Rank.TWO, Rank.THREE, Rank.FOUR, Rank.FIVE, Rank.SIX, Rank.SEVEN, Rank.EIGHT,
     Rank.NINE, Rank.TEN, Rank.JACK, Rank.QUEEN, Rank.KING, Rank.ACE].map fun r => ⟨r, s⟩

/-- `Deck.__init__(excluded_cards)`: 52 cards minus the exclusions, shuffled. -/
def Deck.init (rand : Nat → Nat) (i : Nat) (excluded : Finset Card) : List Card × Nat :=
  shuffle rand i (fullDeck.filter fun card => card ∉ excluded)

/-- `Deck.draw(n)`: fails when fewer than `n` cards remain. -/
def Deck.draw (cards : List Card) (n : Nat) : Option (List Card × List Card) :=
  if cards.length < n then none else some (cards.take n, cards.drop n)

/-- `GameState.copy`: deep copy — the embedding is a value type, so identity. -/
def GameState.copy (s : GameState) : GameState := s

/-- A singleton or empty card set from an optional card. -/
def optCardSet (o : Option Card) : Finset Card :=
  o.elim ∅ (fun c => {c})

/--
`advance_to_showdown`: draw exactly the cards needed to reach 5 community
cards (3/1/1 from 0 community cards, turn+river from 3, river from 4; any
other size below 5 draws but assigns nothing, as in the source), update the
known-card set, and set the stage to showdown.  Returns the new state and the
rest of the deck; `none` models a raised exception (insufficient cards, or
the index error of the 3-community branch on an undersized draw).
-/
def GameState.advance_to_showdown (s : GameState) (deck : List Card) :
    Option (GameState × List Card) :=
  let community := s.get_community_cards
  if community.length < 5 then
    match Deck.draw deck (5 - community.length) with
    | none => none
    | some (remaining_cards, deck2) =>
      match community.length with
      | 0 =>
        let flop := remaining_cards.take 3
        let turn := match remaining_cards[3]? with | some c => some c | none => s.turn
        let river := match remaining_cards[4]? with | some c => some c | none => s.river
        some ({ s with
          flop := some flop
          turn := turn
          river := river
          known_cards := s.known_cards ∪ flop.toFinset ∪ optCardSet turn ∪ optCardSet river
          stage := Stage.showdown }, deck2)
      | 3 =>
        match remaining_cards[0]? with
        | none => none
        | some t =>
          let river := match remaining_cards[1]? with | some c => some c | none => s.river
          some ({ s with
            turn := some t
            river := river
            known_cards := insert t s.known_cards ∪ optCardSet river
            stage := Stage.showdown }, deck2)
      | 4 =>
        match remaining_cards[0]? with
        | none => none
        | some r =>
          some ({ s with
            river := some r
            known_cards := insert r s.known_cards
            stage := Stage.showdown }, deck2)
      | _ => some ({ s with stage := Stage.showdown }, deck2)
  else
    some ({ s with stage := Stage.showdown }, deck)

/-- The tail of `_simulate` after the opponent's cards are ensured. -/
def simFinish (gs : GameState) (deck : List Card) (i : Nat) : Option (ℚ × Nat) :=
  match gs.advance_to_showdown deck with
  | none => none
  | some (gs2, _) =>
    match gs2.evaluate_winner with
    | none => none
    | some result =>
      some ((if 0 < result then (1 : ℚ) else if result = 0 then 1 / 2 else 0), i)

/--
`_simulate`: copy the state; a fresh deck excluding the known cards; draw
opponent hole cards if unset (recreating the deck afterwards, as the source
does); complete the board; evaluate; map {+1, 0, -1} to {1, 0.5, 0}.
-/
def simulate (rand : Nat → Nat) (i : Nat) (node_state : GameState) : Option (ℚ × Nat) :=
  let game_state := node_state.copy
  let (deckCards, i1) := Deck.init rand i game_state.known_cards
  match game_state.opponent_hole_cards with
  | some _ => simFinish game_state deckCards i1
  | none =>
    match Deck.draw deckCards 2 with
    | none => none
    | some (opp, _) =>
      let gs2 := { game_state with
        opponent_hole_cards := some opp
        known_cards := game_state.known_cards ∪ opp.toFinset }
      let (deck2, i2) := Deck.init rand i1 gs2.known_cards
      simFinish gs2 deck2 i2

/--
`class MCTSNode`: a game state, visit/outcome statistics, the expansion flag,
and the owned children.  The parent back-pointer of the source is represented
by paths from the root: selection produces the path, and backpropagation
walks it — exactly the chain the parent pointers encode.  (The node's unused
`known_cards`/`available_cards` sets are omitted: the source never reads
them.)
-/
inductive Node where
  | mk (game_state : GameState) (visits : Nat) (wins : ℚ) (is_expanded : Bool)
      (children : List Node)

def Node.game_state : Node → GameState
  | .mk s _ _ _ _ => s

def Node.visits : Node → Nat
  | .mk _ v _ _ _ => v

def Node.wins : Node → ℚ
  | .mk _ _ w _ _ => w

def Node.is_expanded : Node → Bool
  | .mk _ _ _ e _ => e

def Node.children : Node → List Node
  | .mk _ _ _ _ c => c

/-- `is_leaf`: not yet expanded. -/
def Node.is_leaf (n : Node) : Bool := ! n.is_expanded

/-- `is_terminal`: the node's deal state is at showdown. -/
def Node.is_terminal (n : Node) : Bool := n.game_state.stage = Stage.showdown

/-- `update(result)`: one backpropagation step at one node. -/
def Node.update (n : Node) (result : ℚ) : Node :=
  Node.mk n.game_state (n.visits + 1) (n.wins + result) n.is_expanded n.children

/--
`ucb1_value` definedness: a zero-visit node returns infinity before touching
the logarithm; otherwise `math.log(parent.visits)` is evaluated, which raises
exactly when the argument is 0 — equivalently, it is defined exactly when the
argument is at least 1.
-/
def ucb1_defined (parentVisits visits : Nat) : Bool :=
  visits = 0 || 1 ≤ parentVisits

/-- The two ways a run can fail: the `math.log(0)` error in `ucb1_value`, or
any other raised exception. -/
inductive EngineError where
  | logZero
  | other
deriving DecidableEq, Repr

/--
`best_child`: `None` when there are no children; otherwise every child's
UCB1 value is computed (raising if a log argument is 0) and the arg-max,
a comparison of unmodelled floats, is resolved by the oracle.
-/
def best_child (rand : Nat → Nat) (i : Nat) (n : Node) :
    Except EngineError (Option (Nat × Nat)) :=
  if n.children.isEmpty then .ok none
  else if n.children.all fun c => ucb1_defined n.visits c.visits then
    .ok (some (rand i % n.children.length, i + 1))
  else .error .logZero

/--
`_select`: descend from the root while the current node is expanded and
non-terminal, stopping when `best_child` returns `None`; returns the path of
child indices and the next oracle index.
-/
def selectPath (rand : Nat → Nat) (i : Nat) (n : Node) :
    Except EngineError (List Nat × Nat) :=
  if n.is_leaf || n.is_terminal then .ok ([], i)
  else match best_child rand i n with
    | .error e => .error e
    | .ok none => .ok ([], i)
    | .ok (some (j, i1)) =>
      match h : n.children[j]? with
      | none => .error .other
      | some c =>
        match selectPath rand i1 c with
        | .error e => .error e
        | .ok (p, i2) => .ok (j :: p, i2)
termination_by sizeOf n
decreasing_by
  have hmem : c ∈ n.children := List.getElem?_mem h
  have h1 : sizeOf c < sizeOf n.children := List.sizeOf_lt_of_mem hmem
  cases n with
  | mk s v w e cs => simp only [Node.children] at h1; simp; omega

/-- The `i < j` index pairs enumeration of `_generate_opponent_combinations`. -/
def upairs : List α → List (α × α)
  | [] => []
  | x :: xs => (xs.map fun y => (x, y)) ++ upairs xs

/-- `_generate_opponent_combinations`: every unordered pair from a fresh deck
as opponent hole cards; stage advances to `flop_set`. -/
def generate_opponent_combinations (rand : Nat → Nat) (i : Nat) (gs : GameState) :
    List GameState × Nat :=
  let (available_cards, i1) := Deck.init rand i gs.known_cards
  ((upairs available_cards).map fun p =>
    { gs with
      opponent_hole_cards := some [p.1, p.2]
      known_cards := gs.known_cards ∪ {p.1, p.2}
      stage := Stage.flop_set }, i1)

/-- `_generate_flop_combinations`: every 3-card combination as the flop. -/
def generate_flop_combinations (rand : Nat → Nat) (i : Nat) (gs : GameState) :
    List GameState × Nat :=
  let (available_cards, i1) := Deck.init rand i gs.known_cards
  ((combos 3 available_cards).map fun combo =>
    { gs with
      flop := some combo
      known_cards := gs.known_cards ∪ combo.toFinset
      stage := Stage.turn_set }, i1)

/-- `_generate_turn_combinations`: every remaining card as the turn. -/
def generate_turn_combinations (rand : Nat → Nat) (i : Nat) (gs : GameState) :
    List GameState × Nat :=
  let (available_cards, i1) := Deck.init rand i gs.known_cards
  (available_cards.map fun card =>
    { gs with
      turn := some card
      known_cards := insert card gs.known_cards
      stage := Stage.river_set }, i1)

/-- `_generate_river_combinations`: every remaining card as the river. -/
def generate_river_combinations (rand : Nat → Nat) (i : Nat) (gs : GameState) :
    List GameState × Nat :=
  let (available_cards, i1) := Deck.init rand i gs.known_cards
  (available_cards.map fun card =>
    { gs with
      river := some card
      known_cards := insert card gs.known_cards
      stage := Stage.showdown }, i1)

/--
`_expand`: terminal nodes are returned unchanged; otherwise children are
generated by stage, capped to `max_children` by uniform subsampling
(`random.sample`, modelled as shuffle-then-take), the node is marked
expanded, and a uniformly random child index is chosen (`none` when there
are no children).
-/
def expand (rand : Nat → Nat) (max_children : Nat) (i : Nat) (n : Node) :
    Node × Option Nat × Nat :=
  if n.is_terminal then (n, none, i)
  else
    let gen :=
      match n.game_state.stage with
      | Stage.preflop => generate_opponent_combinations rand i n.game_state
      | Stage.flop_set => generate_flop_combinations rand i n.game_state
      | Stage.turn_set => generate_turn_combinations rand i n.game_state
      | Stage.river_set => generate_river_combinations rand i n.game_state
      | Stage.showdown => ([], i)
    let capped :=
      if gen.1.length > max_children then
        let sh := shuffle rand gen.2 gen.1
        (sh.1.take max_children, sh.2)
      else gen
    let node2 := Node.mk n.game_state n.visits n.wins true
      (capped.1.map fun child_state => Node.mk child_state 0 0 false [])
    if capped.1.isEmpty then (node2, none, capped.2)
    else (node2, some (rand capped.2 % capped.1.length), capped.2 + 1)

/-- Replace the element at an index (identity when out of range). -/
def updateAt : List α → Nat → (α → α) → List α
  | [], _, _ => []
  | x :: xs, 0, f => f x :: xs
  | x :: xs, j + 1, f => x :: updateAt xs j f

/-- The node at a path of child indices. -/
def getPath : Node → List Nat → Option Node
  | n, [] => some n
  | n, j :: p =>
    match n.children[j]? with
    | none => none
    | some c => getPath c p

/-- Replace the subtree at a path. -/
def setPath : Node → List Nat → Node → Node
  | _, [], m => m
  | n, j :: p, m =>
    Node.mk n.game_state n.visits n.wins n.is_expanded
      (updateAt n.children j fun c => setPath c p m)

/--
`_backpropagate`, in path form: starting from the simulated node, walk the
parent chain to the root, updating visit counts and outcome sums — the
parent chain of a node reached by a path is exactly that path, so the walk
updates every node along it.
-/
def backprop : Node → List Nat → ℚ → Node
  | n, [], result => n.update result
  | n, j :: p, result =>
    Node.mk n.game_state (n.visits + 1) (n.wins + result) n.is_expanded
      (updateAt n.children j fun c => backprop c p result)

/--
The expansion phase of one iteration: when the selected node is non-terminal
and already visited, expand it, graft the expanded node back at its path, and
extend the path by the chosen child index; otherwise leave everything as is.
Returns (tree, path, next oracle index).
-/
def expandStep (rand : Nat → Nat) (max_children : Nat) (i1 : Nat) (root : Node)
    (p : List Nat) (node : Node) : Node × List Nat × Nat :=
  if ! node.is_terminal && 0 < node.visits then
    let e := expand rand max_children i1 node
    (setPath root p e.1, p ++ e.2.1.toList, e.2.2)
  else (root, p, i1)

/--
One iteration of `search`: selection; expansion when the selected node is
non-terminal and already visited; simulation at the current node's state;
backpropagation along the path.
-/
def iterate (rand : Nat → Nat) (max_children : Nat) (i : Nat) (root : Node) :
    Except EngineError (Node × Nat) :=
  match selectPath rand i root with
  | .error e => .error e
  | .ok (p, i1) =>
    match getPath root p with
    | none => .error .other
    | some node =>
      let ex := expandStep rand max_children i1 root p node
      match getPath ex.1 ex.2.1 with
      | none => .error .other
      | some simNode =>
        match simulate rand ex.2.2 simNode.game_state with
        | none => .error .other
        | some (result, i3) => .ok (backprop ex.1 ex.2.1 result, i3)

/-- The iteration loop of `search`. -/
def searchLoop (rand : Nat → Nat) (max_children : Nat) :
    Nat → Nat → Node → Except EngineError (Node × Nat)
  | 0, i, root => .ok (root, i)
  | k + 1, i, root =>
    match iterate rand max_children i root with
    | .error e => .error e
    | .ok (root2, i2) => searchLoop rand max_children k i2 root2

/--
`PokerMCTS.search`: build a root from a copy of the state, run the
iterations, and return the root's cumulative outcome over its visit count —
0.5 if the root was never visited.
-/
def search (rand : Nat → Nat) (max_children : Nat) (root_state : GameState)
    (iterations : Nat) : Except EngineError ℚ :=
  match searchLoop rand max_children iterations 0
      (Node.mk root_state.copy 0 0 false []) with
  | .error e => .error e
  | .ok (root, _) =>
    .ok (if root.visits = 0 then 1 / 2 else root.wins / (root.visits : ℚ))

/-! ### Engine lemmas: visit counting and the UCB1 safety invariant -/

theorem backprop_visits (n : Node) (p : List Nat) (r : ℚ) :
    (backprop n p r).visits = n.visits + 1 := by
  cases p with
  | nil => cases n <;> rfl
  | cons j q => cases n <;> rfl

theorem expand_visits (rand : Nat → Nat) (mc i : Nat) (n : Node) :
    (expand rand mc i n).1.visits = n.visits := by
  rw [expand]
  split
  · rfl
  · dsimp only
    split <;> split <;> rfl

theorem setPath_visits_nil (n m : Node) : (setPath n [] m) = m := rfl

theorem setPath_visits_cons (n m : Node) (j : Nat) (p : List Nat) :
    (setPath n (j :: p) m).visits = n.visits := by
  cases n <;> rfl

theorem expandStep_visits {rand mc i1 root p node}
    (hget : getPath root p = some node) :
    (expandStep rand mc i1 root p node).1.visits = root.visits := by
  rw [expandStep]
  split
  · dsimp only
    cases p with
    | nil =>
      have hnr : node = root := by
        rw [getPath] at hget
        exact (Option.some.inj hget).symm
      rw [setPath_visits_nil, expand_visits, hnr]
    | cons j q => rw [setPath_visits_cons]
  · rfl

theorem iterate_visits {rand : Nat → Nat} {mc i : Nat} {root root2 : Node} {i2 : Nat}
    (hit : iterate rand mc i root = .ok (root2, i2)) :
    root2.visits = root.visits + 1 := by
  unfold iterate at hit
  cases hsel : selectPath rand i root with
  | error e => rw [hsel] at hit; cases hit
  | ok pi =>
    obtain ⟨p, i1⟩ := pi
    rw [hsel] at hit
    simp only at hit
    cases hget : getPath root p with
    | none => rw [hget] at hit; cases hit
    | some node =>
      rw [hget] at hit
      simp only at hit
      cases hget2 : getPath (expandStep rand mc i1 root p node).1
          (expandStep rand mc i1 root p node).2.1 with
      | none => rw [hget2] at hit; cases hit
      | some simNode =>
        rw [hget2] at hit
        simp only at hit
        cases hsim : simulate rand (expandStep rand mc i1 root p node).2.2
            simNode.game_state with
        | none => rw [hsim] at hit; cases hit
        | some ri =>
          obtain ⟨result, i3⟩ := ri
          rw [hsim] at hit
          simp only at hit
          injection hit with hpair
          injection hpair with ha hb
          rw [← ha, backprop_visits, expandStep_visits hget]

theorem searchLoop_visits {rand : Nat → Nat} {mc : Nat} : ∀ {k i : Nat} {root root2 : Node} {i2 : Nat},
    searchLoop rand mc k i root = .ok (root2, i2) → root2.visits = root.visits + k := by
  intro k
  induction k with
  | zero =>
    intro i root root2 i2 h
    rw [searchLoop] at h
    injection h with hp
    injection hp with ha hb
    rw [← ha]
    rfl
  | succ k ih =>
    intro i root root2 i2 h
    rw [searchLoop] at h
    cases hit : iterate rand mc i root with
    | error e => rw [hit] at h; cases h
    | ok ri =>
      obtain ⟨rootm, im⟩ := ri
      rw [hit] at h
      simp only at h
      rw [ih h, iterate_visits hit]
      omega

/--
C5: `search` with 0 iterations returns exactly 0.5 (the root is never
visited), and with at least one completed iteration the returned value is
exactly the final root's cumulative outcome sum divided by its visit count,
the visit count being the number of iterations.
-/
theorem search_spec :
    (∀ (rand : Nat → Nat) (max_children : Nat) (root_state : GameState),
        search rand max_children root_state 0 = .ok (1 / 2))
    ∧ ∀ (rand : Nat → Nat) (max_children : Nat) (root_state : GameState)
        (iterations : Nat) (r : ℚ), 1 ≤ iterations →
        search rand max_children root_state iterations = .ok r →
        ∃ root i2, searchLoop rand max_children iterations 0
            (Node.mk root_state.copy 0 0 false []) = .ok (root, i2)
          ∧ root.visits = iterations ∧ r = root.wins / (root.visits : ℚ) := by
  constructor
  · intro rand mc s
    rfl
  · intro rand mc s iters r h1 hs
    rw [search] at hs
    cases hsl : searchLoop rand mc iters 0 (Node.mk s.copy 0 0 false []) with
    | error e => rw [hsl] at hs; cases hs
    | ok ri =>
      obtain ⟨root, i2⟩ := ri
      rw [hsl] at hs
      simp only at hs
      have hv : root.visits = iters := by
        have hvv := searchLoop_visits hsl
        simpa [Node.visits] using hvv
      refine ⟨root, i2, rfl, hv, ?_⟩
      rw [if_neg (by omega : ¬ root.visits = 0)] at hs
      exact (Except.ok.inj hs).symm

/-- A fixed oracle (the all-zero stream, i.e. identity shuffles) for witnesses. -/
def rand0 : Nat → Nat := fun _ => 0

/-- Witness for C5: one iteration from pocket aces under the zero oracle. -/
theorem search_spec_witness :
    search rand0 1000 (GameState.init [⟨Rank.ACE, Suit.SPADES⟩, ⟨Rank.ACE, Suit.HEARTS⟩]) 0
        = .ok (1 / 2)
    ∧ ∃ root i2, searchLoop rand0 1000 1 0
          (Node.mk (GameState.init
            [⟨Rank.ACE, Suit.SPADES⟩, ⟨Rank.ACE, Suit.HEARTS⟩]).copy 0 0 false [])
          = .ok (root, i2)
        ∧ root.visits = 1 ∧ (1 / 2 : ℚ) = root.wins / (root.visits : ℚ) :=
  ⟨search_spec.1 rand0 1000 _,
   search_spec.2 rand0 1000
     (GameState.init [⟨Rank.ACE, Suit.SPADES⟩, ⟨Rank.ACE, Suit.HEARTS⟩]) 1 (1 / 2)
     (by decide) (by with_unfolding_all rfl)⟩

/--
The invariant behind UCB1 safety: any node with children has been expanded,
and any expanded node has at least one visit.
-/
inductive TreeInv : Node → Prop where
  | mk : ∀ (s : GameState) (v : Nat) (w : ℚ) (e : Bool) (cs : List Node),
      (cs ≠ [] → e = true) → (e = true → 1 ≤ v) → (∀ c ∈ cs, TreeInv c) →
      TreeInv (Node.mk s v w e cs)

theorem TreeInv.children_inv {n : Node} (h : TreeInv n) : ∀ c ∈ n.children, TreeInv c := by
  cases h with
  | mk s v w e cs h1 h2 h3 => exact h3

theorem TreeInv.expanded_visits {n : Node} (h : TreeInv n) :
    n.is_expanded = true → 1 ≤ n.visits := by
  cases h with
  | mk s v w e cs h1 h2 h3 => exact h2

theorem treeInv_fresh (st : GameState) : TreeInv (Node.mk st 0 0 false []) :=
  TreeInv.mk _ _ _ _ _ (fun h => absurd rfl h) (fun h => by cases h) (fun c hc => by cases hc)

theorem best_child_no_logZero (rand : Nat → Nat) (i : Nat) {n : Node}
    (hv : 1 ≤ n.visits) : best_child rand i n ≠ .error EngineError.logZero := by
  rw [best_child]
  by_cases hemp : n.children.isEmpty
  · rw [if_pos hemp]
    intro h; cases h
  · have hall : (n.children.all fun c => ucb1_defined n.visits c.visits) = true := by
      rw [List.all_eq_true]
      intro c _
      rw [ucb1_defined]
      simp [decide_eq_true hv]
    rw [if_neg hemp, if_pos hall]
    intro h; cases h

theorem selectPath_no_logZero_aux : ∀ (k : Nat) (rand : Nat → Nat) (i : Nat) (n : Node),
    sizeOf n ≤ k → TreeInv n → selectPath rand i n ≠ .error EngineError.logZero := by
  intro k
  induction k with
  | zero =>
    intro rand i n hs _
    exfalso
    cases n with
    | mk s v w e cs => simp at hs
  | succ k ih =>
    intro rand i n hs hinv hcon
    rw [selectPath] at hcon
    by_cases hl : (n.is_leaf || n.is_terminal) = true
    · rw [if_pos hl] at hcon
      cases hcon
    · rw [if_neg hl] at hcon
      have hexp : n.is_expanded = true := by
        cases he : n.is_expanded
        · exfalso
          apply hl
          rw [Node.is_leaf, he]
          rfl
        · rfl
      have hv := hinv.expanded_visits hexp
      split at hcon
      · rename_i e heq
        injection hcon with h2
        subst h2
        exact absurd heq (best_child_no_logZero rand i hv)
      · cases hcon
      · rename_i j i1 heq
        split at hcon
        · injection hcon with h2
          cases h2
        · rename_i c hj
          split at hcon
          · rename_i e2 heq2
            injection hcon with h2
            subst h2
            have hsize : sizeOf c ≤ k := by
              have hmem : c ∈ n.children := List.getElem?_mem hj
              have h1 : sizeOf c < sizeOf n.children := List.sizeOf_lt_of_mem hmem
              cases n with
              | mk s v w e cs =>
                simp only [Node.children] at h1
                simp at hs
                omega
            exact absurd heq2 (ih rand i1 c hsize
              (hinv.children_inv c (List.getElem?_mem hj)))
          · cases hcon

theorem selectPath_no_logZero (rand : Nat → Nat) (i : Nat) (n : Node) (hinv : TreeInv n) :
    selectPath rand i n ≠ .error EngineError.logZero :=
  selectPath_no_logZero_aux (sizeOf n) rand i n (Nat.le_refl _) hinv

theorem expand_inv {rand : Nat → Nat} {mc i : Nat} {n : Node} (hinv : TreeInv n)
    (hv : 1 ≤ n.visits) : TreeInv (expand rand mc i n).1 := by
  rw [expand]
  split
  · exact hinv
  · dsimp only
    split <;> split <;>
      (refine TreeInv.mk _ _ _ _ _ (fun _ => rfl) (fun _ => hv) ?_
       intro c hc
       obtain ⟨st, -, rfl⟩ := List.mem_map.mp hc
       exact treeInv_fresh st)

theorem mem_updateAt {l : List α} {f : α → α} :
    ∀ {j : Nat}, ∀ x ∈ updateAt l j f, x ∈ l ∨ ∃ y ∈ l, x = f y := by
  induction l with
  | nil => intro j x hx; cases hx
  | cons a as ih =>
    intro j x hx
    cases j with
    | zero =>
      rw [updateAt] at hx
      rcases List.mem_cons.mp hx with rfl | hx2
      · exact Or.inr ⟨a, List.mem_cons_self a as, rfl⟩
      · exact Or.inl (List.mem_cons_of_mem a hx2)
    | succ j2 =>
      rw [updateAt] at hx
      rcases List.mem_cons.mp hx with rfl | hx2
      · exact Or.inl (List.mem_cons_self _ _)
      · rcases ih x hx2 with h | ⟨y, hy, rfl⟩
        · exact Or.inl (List.mem_cons_of_mem a h)
        · exact Or.inr ⟨y, List.mem_cons_of_mem a hy, rfl⟩

theorem updateAt_nil_iff {l : List α} {j : Nat} {f : α → α} :
    updateAt l j f = [] ↔ l = [] := by
  cases l with
  | nil => simp [updateAt]
  | cons a as =>
    cases j with
    | zero => simp [updateAt]
    | succ j2 => simp [updateAt]

theorem setPath_inv : ∀ (p : List Nat) {root m : Node},
    TreeInv root → TreeInv m → TreeInv (setPath root p m) := by
  intro p
  induction p with
  | nil => intro root m _ h2; exact h2
  | cons j q ih =>
    intro root m h1 h2
    cases root with
    | mk s v w e cs =>
      rw [setPath]
      dsimp only [Node.game_state, Node.visits, Node.wins, Node.is_expanded, Node.children]
      cases h1 with
      | mk _ _ _ _ _ hc he hcs =>
        refine TreeInv.mk _ _ _ _ _ ?_ he ?_
        · intro hne
          exact hc (fun hnil => hne (by rw [hnil]; rfl))
        · intro c hcmem
          rcases mem_updateAt c hcmem with hmem | ⟨y, hy, rfl⟩
          · exact hcs c hmem
          · exact ih (hcs y hy) h2

theorem backprop_inv : ∀ (p : List Nat) (r : ℚ) {n : Node},
    TreeInv n → TreeInv (backprop n p r) := by
  intro p
  induction p with
  | nil =>
    intro r n h
    cases n with
    | mk s v w e cs =>
      cases h with
      | mk _ _ _ _ _ hc he hcs =>
        exact TreeInv.mk _ _ _ _ _ hc (fun hh => Nat.le_succ_of_le (he hh)) hcs
  | cons j q ih =>
    intro r n h
    cases n with
    | mk s v w e cs =>
      cases h with
      | mk _ _ _ _ _ hc he hcs =>
        rw [backprop]
        dsimp only [Node.game_state, Node.visits, Node.wins, Node.is_expanded, Node.children]
        refine TreeInv.mk _ _ _ _ _ ?_ (fun hh => Nat.le_succ_of_le (he hh)) ?_
        · intro hne
          exact hc (fun hnil => hne (by rw [hnil]; rfl))
        · intro c hcmem
          rcases mem_updateAt c hcmem with hmem | ⟨y, hy, rfl⟩
          · exact hcs c hmem
          · exact ih r (hcs y hy)

theorem getPath_inv : ∀ (p : List Nat) {root node : Node}, TreeInv root →
    getPath root p = some node → TreeInv node := by
  intro p
  induction p with
  | nil =>
    intro root node h hg
    rw [getPath] at hg
    rw [← Option.some.inj hg]
    exact h
  | cons j q ih =>
    intro root node h hg
    rw [getPath] at hg
    cases hj : root.children[j]? with
    | none => rw [hj] at hg; cases hg
    | some c =>
      rw [hj] at hg
      exact ih (h.children_inv c (List.getElem?_mem hj)) hg

theorem expandStep_inv {rand : Nat → Nat} {mc i1 : Nat} {root : Node} {p : List Nat}
    {node : Node} (hroot : TreeInv root) (hget : getPath root p = some node) :
    TreeInv (expandStep rand mc i1 root p node).1 := by
  rw [expandStep]
  split
  · dsimp only
    rename_i hcond
    have hnodeInv := getPath_inv p hroot hget
    have hv : 1 ≤ node.visits := by
      simp only [Bool.and_eq_true, decide_eq_true_eq] at hcond
      exact hcond.2
    exact setPath_inv p hroot (expand_inv hnodeInv hv)
  · exact hroot

theorem iterate_inv_ok {rand : Nat → Nat} {mc i : Nat} {root root2 : Node} {i2 : Nat}
    (hroot : TreeInv root) (hit : iterate rand mc i root = .ok (root2, i2)) :
    TreeInv root2 := by
  unfold iterate at hit
  cases hsel : selectPath rand i root with
  | error e => rw [hsel] at hit; cases hit
  | ok pi =>
    obtain ⟨p, i1⟩ := pi
    rw [hsel] at hit
    simp only at hit
    cases hget : getPath root p with
    | none => rw [hget] at hit; cases hit
    | some node =>
      rw [hget] at hit
      simp only at hit
      cases hget2 : getPath (expandStep rand mc i1 root p node).1
          (expandStep rand mc i1 root p node).2.1 with
      | none => rw [hget2] at hit; cases hit
      | some simNode =>
        rw [hget2] at hit
        simp only at hit
        cases hsim : simulate rand (expandStep rand mc i1 root p node).2.2
            simNode.game_state with
        | none => rw [hsim] at hit; cases hit
        | some ri =>
          obtain ⟨result, i3⟩ := ri
          rw [hsim] at hit
          simp only at hit
          injection hit with hpair
          injection hpair with ha hb
          rw [← ha]
          exact backprop_inv _ _ (expandStep_inv hroot hget)

theorem iterate_no_logZero {rand : Nat → Nat} {mc i : Nat} {root : Node}
    (hroot : TreeInv root) : iterate rand mc i root ≠ .error EngineError.logZero := by
  unfold iterate
  cases hsel : selectPath rand i root with
  | error e =>
    cases e with
    | logZero => exact absurd hsel (selectPath_no_logZero rand i root hroot)
    | other => intro h; injection h with h2; cases h2
  | ok pi =>
    obtain ⟨p, i1⟩ := pi
    simp only
    cases getPath root p with
    | none => intro h; injection h with h2; cases h2
    | some node =>
      simp only
      cases getPath (expandStep rand mc i1 root p node).1
          (expandStep rand mc i1 root p node).2.1 with
      | none => intro h; injection h with h2; cases h2
      | some simNode =>
        simp only
        cases simulate rand (expandStep rand mc i1 root p node).2.2 simNode.game_state with
        | none => intro h; injection h with h2; cases h2
        | some ri =>
          obtain ⟨res, i3⟩ := ri
          intro h; cases h

theorem searchLoop_no_logZero {rand : Nat → Nat} {mc : Nat} :
    ∀ {k i : Nat} {root : Node}, TreeInv root →
      searchLoop rand mc k i root ≠ .error EngineError.logZero := by
  intro k
  induction k with
  | zero =>
    intro i root _ h
    rw [searchLoop] at h
    cases h
  | succ k ih =>
    intro i root hroot h
    rw [searchLoop] at h
    cases hit : iterate rand mc i root with
    | error e =>
      rw [hit] at h
      injection h with h2
      subst h2
      exact absurd hit (iterate_no_logZero hroot)
    | ok ri =>
      obtain ⟨root2, i2⟩ := ri
      rw [hit] at h
      simp only at h
      exact ih (iterate_inv_ok hroot hit) h

/-- Tests whether a search outcome is the log-of-zero failure. -/
def isLogZero : Except EngineError ℚ → Bool
  | .error EngineError.logZero => true
  | _ => false

/--
C6: throughout every run of `search`, whenever a child's UCB1 value is
computed during selection with a positive visit count, its parent has at
least one visit, so the `math.log` argument is at least 1 and the
log-of-zero error branch is unreachable: no run of `search`, for any oracle,
returns the log-of-zero failure.
-/
theorem search_never_logZero (rand : Nat → Nat) (max_children : Nat)
    (root_state : GameState) (iterations : Nat) :
    isLogZero (search rand max_children root_state iterations) = false := by
  rw [search]
  cases hsl : searchLoop rand max_children iterations 0
      (Node.mk root_state.copy 0 0 false []) with
  | error e =>
    cases e with
    | logZero => exact absurd hsl (searchLoop_no_logZero (treeInv_fresh _))
    | other => rfl
  | ok ri =>
    obtain ⟨root, i2⟩ := ri
    rfl

end Poker
